import Mathlib

/-!
# A shallow embedding of the MirseoDB storage engine

This development embeds the parts of the MirseoDB source (src/core_types.rs,
src/indexing.rs, src/bloom_filter.rs, src/persistence.rs, src/engine.rs and the
value/insert parsers of src/smart_parser.rs) that the specification's claims
talk about, and settles each claim against the embedding.

Modelling conventions, used throughout:
* Rust `f64` values are represented by their IEEE-754 bit pattern, a `Nat`
  below `2 ^ 64`.  Float comparison (`partial_cmp`) is exact on bit patterns
  and is embedded directly; no floating-point arithmetic is performed.
* Rust `HashMap` values are represented by association lists recording one
  possible iteration order.  All lookups are order-independent; the only facts
  proved about iteration order are the ones the persistence claims need, where
  the order-dependence of the codec is exactly the point at issue.
* `usize` row ids and counters are `Nat`; `i64` is `Int` (the engine never
  performs wrapping arithmetic on row values).
-/

namespace MirseoDB

/-! ## IEEE-754 double comparison (bit-pattern level)

`f64` values are carried as bit patterns.  `f64IsNan` and `f64PartialCmp`
embed the semantics of Rust's `f64::partial_cmp`: `none` iff either operand is
a NaN, numeric comparison otherwise, with `-0.0 == +0.0`. -/

def f64IsNan (a : Nat) : Bool :=
  decide ((a / 2 ^ 52) % 2 ^ 11 = 2047) && decide (a % 2 ^ 52 ≠ 0)

/-- Rust `f64::partial_cmp` on bit patterns: `none` iff an operand is NaN;
otherwise compare numerically (sign + magnitude, with both zeros equal). -/
def f64PartialCmp (a b : Nat) : Option Ordering :=
  if f64IsNan a || f64IsNan b then none
  else
    let sa := (a / 2 ^ 63) % 2
    let sb := (b / 2 ^ 63) % 2
    let ma := a % 2 ^ 63
    let mb := b % 2 ^ 63
    if ma = 0 ∧ mb = 0 then some .eq
    else if sa = sb then
      (if sa = 0 then some (compare ma mb) else some (compare mb ma))
    else if sa = 1 then some .lt else some .gt

/-! ## src/indexing.rs: OrderedFloat -/

/-- `OrderedFloat(f64)`, carried as the bit pattern of its payload. -/
structure OrderedFloat where
  bits : Nat
deriving DecidableEq, Repr

/-- `impl PartialEq for OrderedFloat`: `self.0.to_bits() == other.0.to_bits()`. -/
def OrderedFloat.beq (a b : OrderedFloat) : Bool := a.bits == b.bits

/-- `impl Ord for OrderedFloat`:
`self.0.partial_cmp(&other.0).unwrap_or(Ordering::Equal)`. -/
def OrderedFloat.cmp (a b : OrderedFloat) : Ordering :=
  (f64PartialCmp a.bits b.bits).getD .eq

/-! ## src/core_types.rs: values, rows, schema -/

/-- `enum SqlValue` (Float carried as an IEEE-754 bit pattern). -/
inductive SqlValue where
  | integer (i : Int)
  | float (bits : Nat)
  | text (s : String)
  | boolean (b : Bool)
  | null
deriving DecidableEq, Repr

/-- `enum DataType`. -/
inductive DataType where
  | integer
  | float
  | text
  | boolean
deriving DecidableEq, Repr

/-- `struct ColumnDefinition`. -/
structure ColumnDefinition where
  name : String
  dataType : DataType
  nullable : Bool
  primaryKey : Bool
deriving DecidableEq, Repr

/-- `struct Row { columns: HashMap<String, SqlValue> }`, as an association
list recording one possible iteration order of the hash map. -/
structure Row where
  columns : List (String × SqlValue)
deriving DecidableEq, Repr

/-- `HashMap::get` on a row's column map. -/
def rcGet (cols : List (String × SqlValue)) (k : String) : Option SqlValue :=
  (cols.find? (fun p => p.1 == k)).map (·.2)

/-- `HashMap::insert` on a row's column map: replace the value in place when
the key is present (keeping its iteration slot), append otherwise. -/
def rcInsert (cols : List (String × SqlValue)) (k : String) (v : SqlValue) :
    List (String × SqlValue) :=
  if cols.any (fun p => p.1 == k) then
    cols.map (fun p => if p.1 == k then (p.1, v) else p)
  else cols ++ [(k, v)]

/-- `HashMap::remove` on a row's column map. -/
def rcRemove (cols : List (String × SqlValue)) (k : String) :
    List (String × SqlValue) :=
  cols.filter (fun p => ¬ p.1 == k)

/-- `enum ComparisonOperator`. -/
inductive ComparisonOperator where
  | equal
  | notEqual
  | greaterThan
  | lessThan
  | greaterThanOrEqual
  | lessThanOrEqual
deriving DecidableEq, Repr

/-- `struct WhereClause`. -/
structure WhereClause where
  column : String
  operator : ComparisonOperator
  value : SqlValue
deriving DecidableEq, Repr

/-- `enum AlterAction`. -/
inductive AlterAction where
  | addColumn (column : ColumnDefinition)
  | dropColumn (columnName : String)
  | modifyColumn (column : ColumnDefinition)
deriving DecidableEq, Repr

/-- `enum SqlStatement`.  The `Select` arm's `optimization_hint` field is
omitted: `execute` forwards it nowhere (src/engine.rs:138-145) and no claim
mentions it.  `ComplexSelect` payload is likewise elided: its `execute` arm
ignores every field and returns `Ok(vec![])`. -/
inductive SqlStatement where
  | createDatabase (databaseName : String)
  | createTable (tableName : String) (columns : List ColumnDefinition)
  | insert (tableName : String) (columns : List String) (values : List SqlValue)
  | select (tableName : String) (columns : List String)
      (whereClause : Option WhereClause) (limit offset : Option Nat)
  | complexSelect (tableName : String)
  | createCompositeIndex (indexName tableName : String)
      (columnNames : List String) (isUnique : Bool)
  | dropIndex (indexName : String)
  | update (tableName : String) (setClauses : List (String × SqlValue))
      (whereClause : Option WhereClause)
  | delete (tableName : String) (whereClause : Option WhereClause)
  | dropTable (tableName : String)
  | dropDatabase (databaseName : String)
  | alterTable (tableName : String) (action : AlterAction)
deriving DecidableEq, Repr

/-- `enum DatabaseError` (payloads are the formatted message strings). -/
inductive DatabaseError where
  | tableNotFound (s : String)
  | columnNotFound (s : String)
  | parseError (s : String)
  | ioError (s : String)
  | uniqueConstraintViolation (s : String)
  | primaryKeyViolation (s : String)
  | indexAlreadyExists (s : String)
  | invalidDataType (s : String)
  | permissionDenied (s : String)
  | indexNotFound (s : String)
  | invalidCredentials (s : String)
  | twoFactorAuthRequired (s : String)
  | networkError (s : String)
  | httpError (s : String)
  | invalidSqlSyntax (s : String)
  | sqlInjectionDetected
  | queryTooComplex
  | invalidIndexHint (s : String)
deriving DecidableEq, Repr

instance {ε α : Type} [DecidableEq ε] [DecidableEq α] :
    DecidableEq (Except ε α) := fun x y =>
  match x, y with
  | .ok a, .ok b =>
    if h : a = b then isTrue (by rw [h])
    else isFalse (by intro hh; cases hh; exact h rfl)
  | .error a, .error b =>
    if h : a = b then isTrue (by rw [h])
    else isFalse (by intro hh; cases hh; exact h rfl)
  | .ok _, .error _ => isFalse (by intro hh; cases hh)
  | .error _, .ok _ => isFalse (by intro hh; cases hh)

/-- Rust's `{:?}` debug rendering of an `SqlValue`, used inside error message
strings.  (For `Float`, Rust prints the decimal rendering of the `f64`; the
model prints the bit pattern.  No claim inspects a float-bearing message.) -/
def debugSqlValue : SqlValue → String
  | .integer i => "Integer(" ++ toString i ++ ")"
  | .float b => "Float(" ++ toString b ++ ")"
  | .text s => "Text(" ++ s ++ ")"
  | .boolean b => "Boolean(" ++ toString b ++ ")"
  | .null => "Null"

/-! ## src/indexing.rs: index keys -/

/-- `enum IndexKey`. -/
inductive IndexKey where
  | integer (i : Int)
  | float (f : OrderedFloat)
  | text (s : String)
  | boolean (b : Bool)
  | null
deriving DecidableEq, Repr

/-- `impl From<&SqlValue> for IndexKey`. -/
def IndexKey.fromValue : SqlValue → IndexKey
  | .integer i => .integer i
  | .float b => .float ⟨b⟩
  | .text s => .text s
  | .boolean b => .boolean b
  | .null => .null

/-- The derived `Ord` on `IndexKey`: variants in declaration order, payloads
compared by their own `Ord` (for `Float`, the `OrderedFloat` comparison above;
for `String`, lexicographic comparison, which agrees with Rust's UTF-8 byte
comparison because UTF-8 preserves code-point order). -/
def IndexKey.cmp : IndexKey → IndexKey → Ordering
  | .integer a, .integer b => compare a b
  | .integer _, _ => .lt
  | .float _, .integer _ => .gt
  | .float a, .float b => OrderedFloat.cmp a b
  | .float _, _ => .lt
  | .text _, .integer _ => .gt
  | .text _, .float _ => .gt
  | .text a, .text b => compare a b
  | .text _, _ => .lt
  | .boolean _, .null => .lt
  | .boolean a, .boolean b => compare a b
  | .boolean _, _ => .gt
  | .null, .null => .eq
  | .null, _ => .gt

/-! ## `BTreeMap<IndexKey, Vec<usize>>`

Modelled as an association list sorted by `IndexKey.cmp` with cmp-distinct
keys; every operation below reproduces the corresponding `BTreeMap` call on
the key orders that actually arise (the engine only ever stores keys of a
single variant per index, on which `IndexKey.cmp` is a lawful order). -/

abbrev KeyMap := List (IndexKey × List Nat)

/-- `tree.entry(key).or_insert_with(Vec::new).push(row_id)`. -/
def kmPush : KeyMap → IndexKey → Nat → KeyMap
  | [], k, r => [(k, [r])]
  | (k', rs) :: t, k, r =>
    match IndexKey.cmp k k' with
    | .lt => (k, [r]) :: (k', rs) :: t
    | .eq => (k', rs ++ [r]) :: t
    | .gt => (k', rs) :: kmPush t k r

/-- `tree.get(&key).cloned().unwrap_or_default()`. -/
def kmFind (m : KeyMap) (k : IndexKey) : List Nat :=
  match m.find? (fun p => IndexKey.cmp k p.1 == .eq) with
  | some p => p.2
  | none => []

/-- `remove(key,row_id)`: retain other row ids; drop the bucket if empty. -/
def kmRemove (m : KeyMap) (k : IndexKey) (r : Nat) : KeyMap :=
  m.foldr (fun p acc =>
    if IndexKey.cmp k p.1 == .eq then
      let rs := p.2.filter (fun x => x ≠ r)
      if rs.isEmpty then acc else (p.1, rs) :: acc
    else p :: acc) []

/-- Buckets strictly above `k`, concatenated in key order
(`tree.range((Excluded(key), Unbounded))`). -/
def kmGreaterThan (m : KeyMap) (k : IndexKey) : List Nat :=
  (m.filter (fun p => IndexKey.cmp p.1 k == .gt)).flatMap (·.2)

/-- Buckets strictly below `k`, concatenated in key order
(`tree.range(..&key)`). -/
def kmLessThan (m : KeyMap) (k : IndexKey) : List Nat :=
  (m.filter (fun p => IndexKey.cmp p.1 k == .lt)).flatMap (·.2)

/-- `tree.keys().cloned().collect()`. -/
def kmKeys (m : KeyMap) : List IndexKey := m.map (·.1)

/-! ## src/indexing.rs: BTreeIndex -/

/-- `struct BTreeIndex`. -/
structure BTreeIndex where
  name : String
  columnName : String
  isUnique : Bool
  isPrimary : Bool
  tree : KeyMap
deriving DecidableEq, Repr

/-- `BTreeIndex::new`. -/
def BTreeIndex.new (name columnName : String) (isUnique isPrimary : Bool) :
    BTreeIndex :=
  { name, columnName, isUnique, isPrimary, tree := [] }

/-- `BTreeIndex::insert`: unique-violation check, then push into the bucket. -/
def BTreeIndex.insertKey (idx : BTreeIndex) (key : SqlValue) (rowId : Nat) :
    Except DatabaseError BTreeIndex :=
  let indexKey := IndexKey.fromValue key
  if idx.isUnique ∧ ¬ (kmFind idx.tree indexKey).isEmpty then
    .error (.uniqueConstraintViolation
      ("Duplicate value for unique index " ++ idx.name ++ ": " ++ debugSqlValue key))
  else
    .ok { idx with tree := kmPush idx.tree indexKey rowId }

/-- `BTreeIndex::remove`. -/
def BTreeIndex.removeKey (idx : BTreeIndex) (key : SqlValue) (rowId : Nat) :
    BTreeIndex :=
  { idx with tree := kmRemove idx.tree (IndexKey.fromValue key) rowId }

/-- `BTreeIndex::find_exact`. -/
def BTreeIndex.findExact (idx : BTreeIndex) (key : SqlValue) : List Nat :=
  kmFind idx.tree (IndexKey.fromValue key)

/-- `BTreeIndex::find_greater_than`. -/
def BTreeIndex.findGreaterThan (idx : BTreeIndex) (key : SqlValue) : List Nat :=
  kmGreaterThan idx.tree (IndexKey.fromValue key)

/-- `BTreeIndex::find_less_than`. -/
def BTreeIndex.findLessThan (idx : BTreeIndex) (key : SqlValue) : List Nat :=
  kmLessThan idx.tree (IndexKey.fromValue key)

/-- `BTreeIndex::get_all_keys`. -/
def BTreeIndex.getAllKeys (idx : BTreeIndex) : List IndexKey := kmKeys idx.tree

/-- `BTreeIndex::rebuild`: clear the tree, then re-insert every pair,
preserving uniqueness checks. -/
def BTreeIndex.rebuild (idx : BTreeIndex) (data : List (SqlValue × Nat)) :
    Except DatabaseError BTreeIndex :=
  data.foldlM (fun i p => i.insertKey p.1 p.2) { idx with tree := [] }

/-! ## src/indexing.rs: CompositeIndex

`execute` never creates a composite index (its `CreateCompositeIndex` arm is
`Ok(vec![])`), so composite trees are empty in every reachable state; the
operations that `insert_into_indexes` / `remove_from_indexes` /
`rebuild_all_indexes` touch are still embedded. -/

/-- Lexicographic comparison of composite keys (the derived `Ord` on
`Vec<IndexKey>`: a strict prefix is smaller). -/
def compositeCmp : List IndexKey → List IndexKey → Ordering
  | [], [] => .eq
  | [], _ :: _ => .lt
  | _ :: _, [] => .gt
  | a :: as', b :: bs' =>
    match IndexKey.cmp a b with
    | .eq => compositeCmp as' bs'
    | o => o

/-- `struct CompositeIndex`. -/
structure CompositeIndex where
  name : String
  columnNames : List String
  isUnique : Bool
  tree : List (List IndexKey × List Nat)
deriving DecidableEq, Repr

/-- `CompositeIndex::insert` (arity check, uniqueness check, bucket push). -/
def CompositeIndex.insertKey (idx : CompositeIndex) (values : List SqlValue)
    (rowId : Nat) : Except DatabaseError CompositeIndex :=
  if values.length ≠ idx.columnNames.length then
    .error (.invalidDataType "Column count mismatch for composite index")
  else
    let key := values.map IndexKey.fromValue
    let bucket :=
      match idx.tree.find? (fun p => compositeCmp key p.1 == .eq) with
      | some p => p.2
      | none => []
    if idx.isUnique ∧ ¬ bucket.isEmpty then
      .error (.uniqueConstraintViolation
        ("Duplicate value for unique composite index " ++ idx.name))
    else
      .ok { idx with tree := cmPush idx.tree key rowId }
where
  cmPush : List (List IndexKey × List Nat) → List IndexKey → Nat →
      List (List IndexKey × List Nat)
    | [], k, r => [(k, [r])]
    | (k', rs) :: t, k, r =>
      match compositeCmp k k' with
      | .lt => (k, [r]) :: (k', rs) :: t
      | .eq => (k', rs ++ [r]) :: t
      | .gt => (k', rs) :: cmPush t k r

/-- `CompositeIndex::remove`. -/
def CompositeIndex.removeKey (idx : CompositeIndex) (values : List SqlValue)
    (rowId : Nat) : CompositeIndex :=
  let key := values.map IndexKey.fromValue
  { idx with tree := idx.tree.foldr (fun p acc =>
      if compositeCmp key p.1 == .eq then
        let rs := p.2.filter (fun x => x ≠ rowId)
        if rs.isEmpty then acc else (p.1, rs) :: acc
      else p :: acc) [] }

/-! ## src/indexing.rs: usage statistics and the optimizer state

Only the statistics map is embedded: no `execute` path reaches
`optimize_multi_column_query` / `analyze_where_clauses` /
`update_index_stats`, so the `f64` cost model is never exercised (this is
exactly what claim C5 is about).  `selectivity: f64` is carried as a bit
pattern and `last_used: Instant` is dropped (wall-clock time is outside the
embedding). -/

/-- `struct IndexUsageStats` (sans `last_used`). -/
structure IndexUsageStats where
  accessCount : Nat
  selectivityBits : Nat
deriving DecidableEq, Repr

/-- `struct QueryOptimizer`, reduced to its statistics map (see above). -/
structure QueryOptimizer where
  indexUsageStats : List (String × IndexUsageStats)
deriving DecidableEq, Repr

def QueryOptimizer.new : QueryOptimizer := { indexUsageStats := [] }

/-- `HashMap::get` on the statistics map. -/
def statsLookup (stats : List (String × IndexUsageStats)) (name : String) :
    Option IndexUsageStats :=
  (stats.find? (fun p => p.1 == name)).map (·.2)

/-! ## src/indexing.rs: IndexManager -/

/-- `struct IndexManager`. -/
structure IndexManager where
  indexes : List BTreeIndex
  compositeIndexes : List CompositeIndex
  queryOptimizer : QueryOptimizer
deriving DecidableEq, Repr

def IndexManager.new : IndexManager :=
  { indexes := [], compositeIndexes := [], queryOptimizer := QueryOptimizer.new }

/-- `IndexManager::create_index`. -/
def IndexManager.createIndex (m : IndexManager) (name columnName : String)
    (isUnique isPrimary : Bool) : Except DatabaseError IndexManager :=
  if m.indexes.any (fun idx => idx.name == name) then
    .error (.indexAlreadyExists name)
  else
    .ok { m with indexes := m.indexes ++ [BTreeIndex.new name columnName isUnique isPrimary] }

/-- `IndexManager::get_indexes_for_column`. -/
def IndexManager.getIndexesForColumn (m : IndexManager) (columnName : String) :
    List BTreeIndex :=
  m.indexes.filter (fun idx => idx.columnName == columnName)

/-- `IndexManager::get_primary_key_index`. -/
def IndexManager.getPrimaryKeyIndex (m : IndexManager) : Option BTreeIndex :=
  m.indexes.find? (fun idx => idx.isPrimary)

/-- `IndexManager::insert_into_composite_indexes`: for every composite index
whose columns are all present in the row, insert; stop at the first error
(keeping the mutations already applied, as the Rust `?` does). -/
def IndexManager.insertIntoCompositeIndexes (m : IndexManager)
    (columnValues : List (String × SqlValue)) (rowId : Nat) :
    (Option DatabaseError) × IndexManager :=
  let step := fun (acc : (Option DatabaseError) × List CompositeIndex)
      (ci : CompositeIndex) =>
    match acc.1 with
    | some _ => (acc.1, acc.2 ++ [ci])
    | none =>
      let values := ci.columnNames.filterMap (fun col => rcGet columnValues col)
      if values.length = ci.columnNames.length then
        match ci.insertKey values rowId with
        | .ok ci' => (none, acc.2 ++ [ci'])
        | .error e => (some e, acc.2 ++ [ci])
      else (none, acc.2 ++ [ci])
  let r := m.compositeIndexes.foldl step (none, [])
  (r.1, { m with compositeIndexes := r.2 })

/-- `IndexManager::insert_into_indexes`: insert the row's value into every
single-column index on a present column; on the first error, stop but keep
the mutations already applied (Rust's `for … { … ? }`). -/
def IndexManager.insertIntoIndexes (m : IndexManager)
    (columnValues : List (String × SqlValue)) (rowId : Nat) :
    (Option DatabaseError) × IndexManager :=
  let step := fun (acc : (Option DatabaseError) × List BTreeIndex)
      (idx : BTreeIndex) =>
    match acc.1 with
    | some _ => (acc.1, acc.2 ++ [idx])
    | none =>
      match rcGet columnValues idx.columnName with
      | some v =>
        match idx.insertKey v rowId with
        | .ok idx' => (none, acc.2 ++ [idx'])
        | .error e => (some e, acc.2 ++ [idx])
      | none => (none, acc.2 ++ [idx])
  let r := m.indexes.foldl step (none, [])
  let m' := { m with indexes := r.2 }
  match r.1 with
  | some e => (some e, m')
  | none => m'.insertIntoCompositeIndexes columnValues rowId

/-- `IndexManager::rebuild_all_indexes`: rebuild every single-column index
from the rows that carry its column, then every composite index.  Unlike
insertion, a failure here aborts the surrounding load wholesale, so the
all-or-nothing `Except` shape is faithful to every use site. -/
def IndexManager.rebuildAllIndexes (m : IndexManager)
    (tableData : List (List (String × SqlValue) × Nat)) :
    Except DatabaseError IndexManager := do
  let indexes ← m.indexes.mapM (fun idx =>
    idx.rebuild (tableData.filterMap (fun p =>
      (rcGet p.1 idx.columnName).map (fun v => (v, p.2)))))
  let composites ← m.compositeIndexes.mapM (fun ci => do
    let cleared := { ci with tree := [] }
    tableData.foldlM (fun c p =>
      let values := c.columnNames.filterMap (fun col => rcGet p.1 col)
      if values.length = c.columnNames.length then
        c.insertKey values p.2
      else pure c) cleared)
  return { m with indexes := indexes, compositeIndexes := composites }

/-- The comparator of `IndexManager::find_best_index_for_query`'s `sort_by`.
The `(Some, Some)` arm of the source compares `f64` scores derived from the
usage statistics; no `execute` path ever populates the statistics map, so that
arm is unreachable here and is modelled as `Ordering::Equal`. -/
def cmpIndexCandidates (stats : List (String × IndexUsageStats))
    (a b : BTreeIndex) : Ordering :=
  match statsLookup stats a.name, statsLookup stats b.name with
  | some _, some _ => .eq
  | some _, none => .lt
  | none, some _ => .gt
  | none, none =>
    match a.isPrimary, b.isPrimary with
    | true, false => .lt
    | false, true => .gt
    | _, _ =>
      match a.isUnique, b.isUnique with
      | true, false => .lt
      | false, true => .gt
      | _, _ => .eq

/-- Stable ascending insertion by an `Ordering`-valued comparator (the
behaviour of Rust's stable `slice::sort_by`). -/
def stableInsertBy (cmp : BTreeIndex → BTreeIndex → Ordering)
    (x : BTreeIndex) : List BTreeIndex → List BTreeIndex
  | [] => [x]
  | y :: ys =>
    if cmp x y == .lt then x :: y :: ys else y :: stableInsertBy cmp x ys

/-- Stable sort by comparator (equal elements keep their input order). -/
def stableSortBy (cmp : BTreeIndex → BTreeIndex → Ordering)
    (l : List BTreeIndex) : List BTreeIndex :=
  l.foldl (fun acc x => stableInsertBy cmp x acc) []

/-- `IndexManager::find_best_index_for_query`. -/
def IndexManager.findBestIndexForQuery (m : IndexManager) (columnName : String) :
    Option BTreeIndex :=
  (stableSortBy (cmpIndexCandidates m.queryOptimizer.indexUsageStats)
    (m.getIndexesForColumn columnName)).head?

/-- `IndexManager::get_query_optimizer_stats`. -/
def IndexManager.getQueryOptimizerStats (m : IndexManager) :
    List (String × IndexUsageStats) :=
  m.queryOptimizer.indexUsageStats

/-! ## Byte-level helpers (UTF-8 and little-endian integers)

Bytes are `Nat` values below 256.  `utf8Bytes` is the UTF-8 encoding of a
string (Rust `str::as_bytes`); `utf8DecodeList` is the validating decoder
behind `String::from_utf8`. -/

/-- UTF-8 encoding of one scalar value. -/
def utf8EncodeChar (c : Char) : List Nat :=
  let n := c.toNat
  if n < 0x80 then [n]
  else if n < 0x800 then [0xC0 + n / 64, 0x80 + n % 64]
  else if n < 0x10000 then
    [0xE0 + n / 4096, 0x80 + (n / 64) % 64, 0x80 + n % 64]
  else
    [0xF0 + n / 262144, 0x80 + (n / 4096) % 64, 0x80 + (n / 64) % 64,
     0x80 + n % 64]

/-- `str::as_bytes` / `String::as_bytes`. -/
def utf8Bytes (s : String) : List Nat := s.data.flatMap utf8EncodeChar

/-- Whether a byte is a UTF-8 continuation byte. -/
def utf8Cont (b : Nat) : Prop := 0x80 ≤ b ∧ b ≤ 0xBF

instance (b : Nat) : Decidable (utf8Cont b) := by unfold utf8Cont; infer_instance

/-- The validating UTF-8 decoder behind `String::from_utf8` (overlong forms
and surrogates rejected). -/
def utf8DecodeList : List Nat → Option (List Char)
  | [] => some []
  | b :: rest =>
    if b < 0x80 then
      (utf8DecodeList rest).map (fun cs => Char.ofNat b :: cs)
    else if 0xC2 ≤ b ∧ b ≤ 0xDF then
      match rest with
      | b1 :: rest1 =>
        if utf8Cont b1 then
          (utf8DecodeList rest1).map
            (fun cs => Char.ofNat ((b - 0xC0) * 64 + (b1 - 0x80)) :: cs)
        else none
      | [] => none
    else if 0xE0 ≤ b ∧ b ≤ 0xEF then
      match rest with
      | b1 :: b2 :: rest2 =>
        if utf8Cont b1 ∧ utf8Cont b2 ∧
            (b ≠ 0xE0 ∨ 0xA0 ≤ b1) ∧ (b ≠ 0xED ∨ b1 ≤ 0x9F) then
          (utf8DecodeList rest2).map
            (fun cs =>
              Char.ofNat ((b - 0xE0) * 4096 + (b1 - 0x80) * 64 + (b2 - 0x80)) :: cs)
        else none
      | _ => none
    else if 0xF0 ≤ b ∧ b ≤ 0xF4 then
      match rest with
      | b1 :: b2 :: b3 :: rest3 =>
        if utf8Cont b1 ∧ utf8Cont b2 ∧ utf8Cont b3 ∧
            (b ≠ 0xF0 ∨ 0x90 ≤ b1) ∧ (b ≠ 0xF4 ∨ b1 ≤ 0x8F) then
          (utf8DecodeList rest3).map
            (fun cs =>
              Char.ofNat ((b - 0xF0) * 262144 + (b1 - 0x80) * 4096 +
                (b2 - 0x80) * 64 + (b3 - 0x80)) :: cs)
        else none
      | _ => none
    else none

/-- `String::from_utf8`. -/
def stringFromUtf8 (bytes : List Nat) : Option String :=
  (utf8DecodeList bytes).map (fun cs => ⟨cs⟩)

/-- `n` little-endian bytes of `x` (`to_le_bytes` truncates at `2 ^ (8 n)`). -/
def leBytes : Nat → Nat → List Nat
  | 0, _ => []
  | n + 1, x => (x % 256) :: leBytes n (x / 256)

/-- `u32::to_le_bytes` of `x as u32`. -/
def u32Bytes (x : Nat) : List Nat := leBytes 4 x

/-- The `u64` two's-complement image of an `i64`. -/
def u64OfInt (i : Int) : Nat := (i.emod (2 ^ 64)).toNat

/-- The value of a little-endian byte list. -/
def leVal (bytes : List Nat) : Nat :=
  bytes.foldr (fun byte acc => byte + 256 * acc) 0

/-- Little-endian read of `n` bytes at offset `c` (every call site performs
the source's bounds check first, so the slice is full-length). -/
def leRead (b : List Nat) (c n : Nat) : Nat :=
  leVal ((b.drop c).take n)

/-- The `i64` denoted by a `u64` two's-complement image. -/
def intOfU64 (v : Nat) : Int :=
  if v < 2 ^ 63 then (v : Int) else (v : Int) - 2 ^ 64

/-! ## src/persistence.rs: serialization -/

/-- `StorageEngine::serialize_sql_value`. -/
def serializeSqlValue : SqlValue → List Nat
  | .integer i => 0 :: leBytes 8 (u64OfInt i)
  | .float bits => 1 :: leBytes 8 bits
  | .text s => 2 :: (u32Bytes (utf8Bytes s).length ++ utf8Bytes s)
  | .boolean b => [3, if b then 1 else 0]
  | .null => [4]

/-- `StorageEngine::serialize_row`: the entry count, then every
`(column name, value)` pair in the row map's iteration order. -/
def serializeRowBytes (r : Row) : List Nat :=
  u32Bytes r.columns.length ++
    r.columns.flatMap (fun p =>
      u32Bytes (utf8Bytes p.1).length ++ utf8Bytes p.1 ++ serializeSqlValue p.2)

/-- `StorageEngine::serialize_column_definition`. -/
def serializeColumnDefinition (c : ColumnDefinition) : List Nat :=
  u32Bytes (utf8Bytes c.name).length ++ utf8Bytes c.name ++
    [match c.dataType with
     | .integer => 0
     | .float => 1
     | .text => 2
     | .boolean => 3,
     if c.nullable then 1 else 0,
     if c.primaryKey then 1 else 0]

/-! The table layer needs `Table`, which needs `IndexManager` (already
defined); `Table` itself is from src/core_types.rs. -/

/-- `struct Table`. -/
structure Table where
  name : String
  columns : List ColumnDefinition
  rows : List Row
  indexManager : IndexManager
  nextRowId : Nat
deriving DecidableEq, Repr

/-- `StorageEngine::serialize_table`. -/
def serializeTableBytes (t : Table) : List Nat :=
  u32Bytes (utf8Bytes t.name).length ++ utf8Bytes t.name ++
    u32Bytes t.columns.length ++ t.columns.flatMap serializeColumnDefinition ++
    u32Bytes t.rows.length ++ t.rows.flatMap serializeRowBytes

/-- `StorageEngine::serialize_tables`: the table count, then every table in
the `HashMap<String, Table>` iteration order (recorded by the list). -/
def serializeTables (tables : List (String × Table)) : List Nat :=
  u32Bytes tables.length ++ tables.flatMap (fun p => serializeTableBytes p.2)

/-! ## src/persistence.rs: deserialization -/

/-- `StorageEngine::deserialize_sql_value`. -/
def deserializeSqlValue (buffer : List Nat) (cursor : Nat) :
    Except DatabaseError (SqlValue × Nat) :=
  if buffer.length ≤ cursor then
    .error (.ioError "Invalid SQL value data")
  else
    let valueType := buffer.getD cursor 0
    let c := cursor + 1
    if valueType = 0 then
      if buffer.length < c + 8 then .error (.ioError "Invalid integer data")
      else .ok (.integer (intOfU64 (leRead buffer c 8)), c + 8)
    else if valueType = 1 then
      if buffer.length < c + 8 then .error (.ioError "Invalid float data")
      else .ok (.float (leRead buffer c 8), c + 8)
    else if valueType = 2 then
      if buffer.length < c + 4 then .error (.ioError "Invalid text length data")
      else
        let textLen := leRead buffer c 4
        let c := c + 4
        if buffer.length < c + textLen then .error (.ioError "Invalid text data")
        else
          match stringFromUtf8 ((buffer.drop c).take textLen) with
          | some s => .ok (.text s, c + textLen)
          | none => .error (.ioError "Invalid UTF-8 in text value")
    else if valueType = 3 then
      if buffer.length ≤ c then .error (.ioError "Invalid boolean data")
      else .ok (.boolean (buffer.getD c 0 == 1), c + 1)
    else if valueType = 4 then .ok (.null, c)
    else .error (.ioError "Unknown SQL value type")

/-- The `for _ in 0..column_count` loop of `deserialize_row`. -/
def deserializeRowColumns (buffer : List Nat) :
    Nat → Nat → List (String × SqlValue) →
    Except DatabaseError (List (String × SqlValue) × Nat)
  | 0, cursor, acc => .ok (acc, cursor)
  | n + 1, cursor, acc =>
    if buffer.length < cursor + 4 then
      .error (.ioError "Invalid row column data")
    else
      let nameLen := leRead buffer cursor 4
      let c := cursor + 4
      if buffer.length < c + nameLen then
        .error (.ioError "Invalid row column name data")
      else
        match stringFromUtf8 ((buffer.drop c).take nameLen) with
        | none => .error (.ioError "Invalid UTF-8 in column name")
        | some columnName => do
          let (value, c') ← deserializeSqlValue buffer (c + nameLen)
          deserializeRowColumns buffer n c' (rcInsert acc columnName value)

/-- `StorageEngine::deserialize_row` (the entries are accumulated with
`HashMap::insert`; the model records them in insertion order — one admissible
iteration order of the resulting map). -/
def deserializeRow (buffer : List Nat) (cursor : Nat) :
    Except DatabaseError (Row × Nat) :=
  if buffer.length < cursor + 4 then .error (.ioError "Invalid row data")
  else do
    let columnCount := leRead buffer cursor 4
    let (cols, c) ← deserializeRowColumns buffer columnCount (cursor + 4) []
    return (⟨cols⟩, c)

/-- `StorageEngine::deserialize_column_definition`. -/
def deserializeColumnDefinition (buffer : List Nat) (cursor : Nat) :
    Except DatabaseError (ColumnDefinition × Nat) :=
  if buffer.length < cursor + 4 then
    .error (.ioError "Invalid column definition data")
  else
    let nameLen := leRead buffer cursor 4
    let c := cursor + 4
    if buffer.length < c + nameLen + 3 then
      .error (.ioError "Invalid column definition data")
    else
      match stringFromUtf8 ((buffer.drop c).take nameLen) with
      | none => .error (.ioError "Invalid UTF-8 in column name")
      | some name =>
        let c := c + nameLen
        let tag := buffer.getD c 0
        if tag = 0 ∨ tag = 1 ∨ tag = 2 ∨ tag = 3 then
          let dataType : DataType :=
            if tag = 0 then .integer
            else if tag = 1 then .float
            else if tag = 2 then .text
            else .boolean
          .ok ({ name, dataType,
                 nullable := buffer.getD (c + 1) 0 == 1,
                 primaryKey := buffer.getD (c + 2) 0 == 1 }, c + 3)
        else .error (.ioError "Invalid data type")

/-- The `for _ in 0..column_count` loop of `deserialize_table`. -/
def deserializeTableColumns (buffer : List Nat) :
    Nat → Nat → List ColumnDefinition →
    Except DatabaseError (List ColumnDefinition × Nat)
  | 0, cursor, acc => .ok (acc, cursor)
  | n + 1, cursor, acc => do
    let (col, c) ← deserializeColumnDefinition buffer cursor
    deserializeTableColumns buffer n c (acc ++ [col])

/-- The `for _ in 0..row_count` loop of `deserialize_table`. -/
def deserializeTableRows (buffer : List Nat) :
    Nat → Nat → List Row → Except DatabaseError (List Row × Nat)
  | 0, cursor, acc => .ok (acc, cursor)
  | n + 1, cursor, acc => do
    let (row, c) ← deserializeRow buffer cursor
    deserializeTableRows buffer n c (acc ++ [row])

/-- The auto-indexing rules applied by both `create_table_with_indexes`
(src/engine.rs:392-415) and `deserialize_table` (src/persistence.rs:243-253):
a unique primary index named `pk_<col>` per primary-key column, a plain index
named `idx_<table>_<col>` per NOT-NULL non-primary column. -/
def buildAutoIndexes (tableName : String) (columns : List ColumnDefinition) :
    Except DatabaseError IndexManager :=
  columns.foldlM (fun m column =>
    if column.primaryKey then
      m.createIndex ("pk_" ++ column.name) column.name true true
    else if ¬ column.nullable then
      m.createIndex ("idx_" ++ tableName ++ "_" ++ column.name) column.name false false
    else pure m) IndexManager.new

/-- `StorageEngine::deserialize_table`: header, columns, rows, auto-indexes,
full index rebuild; `next_row_id` ends up as the row count. -/
def deserializeTable (buffer : List Nat) (cursor : Nat) :
    Except DatabaseError (Table × Nat) :=
  if buffer.length < cursor + 4 then .error (.ioError "Invalid table data")
  else
    let nameLen := leRead buffer cursor 4
    let c := cursor + 4
    if buffer.length < c + nameLen then
      .error (.ioError "Invalid table name data")
    else
      match stringFromUtf8 ((buffer.drop c).take nameLen) with
      | none => .error (.ioError "Invalid UTF-8 in table name")
      | some name =>
        let c := c + nameLen
        if buffer.length < c + 4 then
          .error (.ioError "Invalid column count data")
        else do
          let columnCount := leRead buffer c 4
          let (columns, c) ← deserializeTableColumns buffer columnCount (c + 4) []
          if buffer.length < c + 4 then
            throw (.ioError "Invalid row count data")
          else do
            let rowCount := leRead buffer c 4
            let (rows, c) ← deserializeTableRows buffer rowCount (c + 4) []
            let indexManager ← buildAutoIndexes name columns
            let snapshot := (rows.enum.map (fun p => (p.2.columns, p.1)))
            let indexManager ← indexManager.rebuildAllIndexes snapshot
            return ({ name, columns, rows, indexManager,
                      nextRowId := rows.length }, c)

/-- The `for _ in 0..table_count` loop of `deserialize_tables` (tables are
accumulated by `HashMap::insert`; the model lists them in insertion order). -/
def deserializeTablesLoop (buffer : List Nat) :
    Nat → Nat → List (String × Table) →
    Except DatabaseError (List (String × Table))
  | 0, _, acc => .ok acc
  | n + 1, cursor, acc => do
    let (table, c) ← deserializeTable buffer cursor
    let acc' :=
      if acc.any (fun p => p.1 == table.name) then
        acc.map (fun p => if p.1 == table.name then (p.1, table) else p)
      else acc ++ [(table.name, table)]
    deserializeTablesLoop buffer n c acc'

/-- `StorageEngine::deserialize_tables` (a buffer shorter than 4 bytes yields
the empty map). -/
def deserializeTables (buffer : List Nat) :
    Except DatabaseError (List (String × Table)) :=
  if buffer.length < 4 then .ok []
  else deserializeTablesLoop buffer (leRead buffer 0 4) 4 []

/-! ## src/engine.rs: value comparison, predicate evaluation, projection -/

/-- `Database::compare_values`: same-variant comparison, with floats through
`partial_cmp(..).unwrap_or(Equal)`; mixed variants compare `Equal`. -/
def compareValues (a b : SqlValue) : Ordering :=
  match a, b with
  | .integer a, .integer b => compare a b
  | .float a, .float b => (f64PartialCmp a b).getD .eq
  | .text a, .text b => compare a b
  | .boolean a, .boolean b => compare a b
  | .null, .null => .eq
  | _, _ => .eq

/-- `Database::compare_values_fast` (its body is identical to
`compare_values`). -/
def compareValuesFast (a b : SqlValue) : Ordering :=
  match a, b with
  | .integer a, .integer b => compare a b
  | .float a, .float b => (f64PartialCmp a b).getD .eq
  | .text a, .text b => compare a b
  | .boolean a, .boolean b => compare a b
  | .null, .null => .eq
  | _, _ => .eq

/-- Dispatch on a `ComparisonOperator` given the computed `Ordering`
(shared shape of both `evaluate_where_clause` bodies). -/
def operatorHolds (op : ComparisonOperator) (o : Ordering) : Bool :=
  match op with
  | .equal => o == .eq
  | .notEqual => ¬ o == .eq
  | .greaterThan => o == .gt
  | .lessThan => o == .lt
  | .greaterThanOrEqual => o == .gt || o == .eq
  | .lessThanOrEqual => o == .lt || o == .eq

/-- `Database::evaluate_where_clause`. -/
def evaluateWhereClause (row : Row) (wc : WhereClause) :
    Except DatabaseError Bool :=
  match rcGet row.columns wc.column with
  | none => .error (.columnNotFound wc.column)
  | some rowValue => .ok (operatorHolds wc.operator (compareValues rowValue wc.value))

/-- `Database::evaluate_where_clause_optimized` (same semantics through
`compare_values_fast`). -/
def evaluateWhereClauseOptimized (row : Row) (wc : WhereClause) :
    Except DatabaseError Bool :=
  match rcGet row.columns wc.column with
  | none => .error (.columnNotFound wc.column)
  | some rowValue =>
    .ok (operatorHolds wc.operator (compareValuesFast rowValue wc.value))

/-- `Database::project_columns_optimized`: `["*"]` keeps the whole row map,
otherwise a fresh map is built from the named columns that exist. -/
def projectColumnsOptimized (row : Row) (columns : List String) : Row :=
  if columns = ["*"] then row
  else
    ⟨columns.foldl (fun acc c =>
      match rcGet row.columns c with
      | some v => rcInsert acc c v
      | none => acc) []⟩

/-- `Database::project_columns` (delegates to the optimized version). -/
def projectColumns (row : Row) (columns : List String) : Row :=
  projectColumnsOptimized row columns

/-! ## src/bloom_filter.rs: Bloom filters

`hash_value` calls `std::collections::hash_map::DefaultHasher` (SipHash-1-3),
which lives in the Rust standard library, not in this repository.  Modelled
from the spec: "Hashing uses a stable 64-bit non-cryptographic function,
seeded per `k` iteration" — the model hashes the seed's 8 little-endian bytes
followed by the value's `Hash`-fed bytes through 64-bit FNV-1a.  No claim
below depends on the hash values themselves. -/

/-- One FNV-1a step at 64 bits. -/
def fnvStep (h b : Nat) : Nat := (Nat.xor h b) * 1099511628211 % 2 ^ 64

/-- 64-bit FNV-1a over a byte list. -/
def fnvHash (bytes : List Nat) : Nat := bytes.foldl fnvStep 14695981039346656037

/-- The byte stream an `SqlValue` feeds to the hasher
(src/bloom_filter.rs:69-75: `i64`/`f64::to_bits` as 8 LE bytes, strings as
UTF-8 bytes plus the `0xFF` terminator Rust's `Hash for str` appends, bools
as one byte, `Null` as the byte 0). -/
def valueHashBytes : SqlValue → List Nat
  | .integer i => leBytes 8 (u64OfInt i)
  | .float bits => leBytes 8 bits
  | .text s => utf8Bytes s ++ [0xFF]
  | .boolean b => [if b then 1 else 0]
  | .null => [0]

/-- `BloomFilter::hash_value` (see the section comment for the modelling of
`DefaultHasher`). -/
def hashValue (v : SqlValue) (seed : Nat) : Nat :=
  fnvHash (leBytes 8 seed ++ valueHashBytes v)

/-- `struct BloomFilter`. -/
structure BloomFilter where
  bitArray : List Bool
  size : Nat
  hashFunctions : Nat
  elementCount : Nat
deriving DecidableEq, Repr

/-- `BloomFilter::optimal_size`.  Modelled from the source's `f64` formula
`m = ⌈−n·ln(p)/(ln 2)²⌉` at the fixed `p = 0.01` both call sites pass, as a
fixed-point computation (`−ln(0.01)/(ln 2)² ≈ 9.585058354`); the exact sizes
are immaterial to every claim below. -/
def optimalSize (n : Nat) : Nat := (n * 9585058354 + (10 ^ 9 - 1)) / 10 ^ 9

/-- `BloomFilter::optimal_hash_functions`, `k = ⌈(m/n)·ln 2⌉`, modelled the
same way (`ln 2 ≈ 0.693147181`); called with `n ≥ 1` at every site. -/
def optimalHashFunctions (m n : Nat) : Nat :=
  (m * 693147181 + (n * 10 ^ 9 - 1)) / (n * 10 ^ 9)

/-- `BloomFilter::new` (the `false_positive_rate` argument is `0.01` at both
call sites and is folded into the modelled sizing constants). -/
def BloomFilter.new (expectedElements : Nat) : BloomFilter :=
  let size := optimalSize expectedElements
  let hashFunctions := optimalHashFunctions size expectedElements
  { bitArray := List.replicate size false, size, hashFunctions,
    elementCount := 0 }

/-- `BloomFilter::new_with_params`. -/
def BloomFilter.newWithParams (size hashFunctions : Nat) : BloomFilter :=
  { bitArray := List.replicate size false, size, hashFunctions,
    elementCount := 0 }

/-- `BloomFilter::insert`: set the `k` seeded hash positions, bump the
element count. -/
def BloomFilter.insertValue (f : BloomFilter) (v : SqlValue) : BloomFilter :=
  { f with
    bitArray := (List.range f.hashFunctions).foldl
      (fun arr i => arr.set (hashValue v i % f.size) true) f.bitArray,
    elementCount := f.elementCount + 1 }

/-- `BloomFilter::contains`: all `k` seeded hash positions set. -/
def BloomFilter.containsValue (f : BloomFilter) (v : SqlValue) : Bool :=
  (List.range f.hashFunctions).all
    (fun i => f.bitArray.getD (hashValue v i % f.size) false)

/-- `struct ColumnBloomFilter`. -/
structure ColumnBloomFilter where
  filters : List (String × BloomFilter)
  rowCount : Nat
deriving DecidableEq, Repr

def ColumnBloomFilter.new : ColumnBloomFilter := { filters := [], rowCount := 0 }

/-- `HashMap::get` on the per-column filter map. -/
def cbfGet (filters : List (String × BloomFilter)) (column : String) :
    Option BloomFilter :=
  (filters.find? (fun p => p.1 == column)).map (·.2)

/-- `HashMap::insert` on the per-column filter map. -/
def cbfPut (filters : List (String × BloomFilter)) (column : String)
    (f : BloomFilter) : List (String × BloomFilter) :=
  if filters.any (fun p => p.1 == column) then
    filters.map (fun p => if p.1 == column then (p.1, f) else p)
  else filters ++ [(column, f)]

/-- `ColumnBloomFilter::build_from_table`: clear, then for every row and
every column entry, insert the value into that column's filter (created on
first use with `expected = row_count.max(1000)`). -/
def ColumnBloomFilter.buildFromTable (_cbf : ColumnBloomFilter)
    (tableData : List (List (String × SqlValue) × Nat)) : ColumnBloomFilter :=
  let expectedElements := max tableData.length 1000
  let filters := tableData.foldl (fun fs p =>
    p.1.foldl (fun fs q =>
      let f := (cbfGet fs q.1).getD (BloomFilter.new expectedElements)
      cbfPut fs q.1 (f.insertValue q.2)) fs) []
  { filters, rowCount := tableData.length }

/-- `ColumnBloomFilter::might_contain`: `false` when the column has no
filter. -/
def ColumnBloomFilter.mightContain (cbf : ColumnBloomFilter) (column : String)
    (v : SqlValue) : Bool :=
  match cbfGet cbf.filters column with
  | some f => f.containsValue v
  | none => false

/-- `ColumnBloomFilter::can_skip_scan`: skip only when the column has a
filter and it reports the value absent. -/
def ColumnBloomFilter.canSkipScan (cbf : ColumnBloomFilter) (column : String)
    (v : SqlValue) : Bool :=
  match cbfGet cbf.filters column with
  | some f => ¬ f.containsValue v
  | none => false

/-! ## src/bloom_filter.rs: ChunkedTableScanner -/

/-- `struct ChunkedTableScanner`. -/
structure ChunkedTableScanner where
  chunkSize : Nat
  maxMemoryMb : Nat
  earlyTerminationEnabled : Bool
deriving DecidableEq, Repr

def ChunkedTableScanner.new (chunkSize maxMemoryMb : Nat) :
    ChunkedTableScanner :=
  { chunkSize, maxMemoryMb, earlyTerminationEnabled := true }

def ChunkedTableScanner.withEarlyTermination (s : ChunkedTableScanner)
    (enabled : Bool) : ChunkedTableScanner :=
  { s with earlyTerminationEnabled := enabled }

/-- `std::mem::size_of::<Row>()` on a 64-bit target (the byte size of the
`HashMap` header); modelled as the constant 48 — it only feeds the memory
estimate, which no claim's input comes near. -/
def rowStructSize : Nat := 48

/-- The byte contribution of a value in `estimate_row_size`. -/
def valueByteSize : SqlValue → Nat
  | .integer _ => 8
  | .float _ => 8
  | .text s => (utf8Bytes s).length
  | .boolean _ => 1
  | .null => 0

/-- `ChunkedTableScanner::estimate_row_size`. -/
def estimateRowSize (r : Row) : Nat :=
  rowStructSize +
    (r.columns.map (fun p => (utf8Bytes p.1).length + valueByteSize p.2)).sum

/-- `ChunkedTableScanner::estimate_chunk_memory_usage`. -/
def estimateChunkMemoryUsage (chunk : List Row) : Nat :=
  let avgRowSize :=
    if chunk.isEmpty then 1024
    else (chunk.map estimateRowSize).sum / chunk.length
  chunk.length * avgRowSize

/-- Fuel-indexed helper for `chunksOf` (the fuel starts at `l.length + 1`,
which the chunk step never exhausts; structural recursion keeps the
definition kernel-reducible). -/
def chunksOfAux (n : Nat) : Nat → List Row → List (List Row)
  | 0, _ => []
  | _, [] => []
  | fuel + 1, l => l.take n :: chunksOfAux n fuel (l.drop n)

/-- `slice::chunks` (never called with chunk size 0: the engine passes 1000
or 10000; chunk size 0 yields `[]` here where Rust would panic). -/
def chunksOf (n : Nat) (l : List Row) : List (List Row) :=
  if n = 0 then [] else chunksOfAux n (l.length + 1) l

/-- `usize::MAX`, the effective limit when none is supplied. -/
def usizeMax : Nat := 2 ^ 64 - 1

/-- The row processor that `select_with_advanced_scan` passes to the scanner
(src/engine.rs:734-747), inlined: predicate check, OFFSET skip (threading the
closure's `current_skip` counter), projection. -/
def advancedScanProcessRow (wc : Option WhereClause) (skipCount : Nat)
    (columns : List String) (row : Row) (currentSkip : Nat) :
    Except DatabaseError (Option Row × Nat) := do
  match wc with
  | some w =>
    let b ← evaluateWhereClauseOptimized row w
    if ¬ b then return (none, currentSkip)
    else if currentSkip < skipCount then return (none, currentSkip + 1)
    else return (some (projectColumnsOptimized row columns), currentSkip)
  | none =>
    if currentSkip < skipCount then return (none, currentSkip + 1)
    else return (some (projectColumnsOptimized row columns), currentSkip)

/-- The row loop inside one chunk of `scan_with_bloom_filter`
(src/bloom_filter.rs:231-249): per-row Bloom pre-filter, processor, push and
early break once the chunk's results plus the accumulated results reach the
limit.  (`processed_rows` is only ever printed and is not modelled.) -/
def scanChunkRows (bf : ColumnBloomFilter) (wc : Option WhereClause)
    (early : Bool) (effectiveLimit resultsLen : Nat) (columns : List String)
    (skipCount : Nat) :
    List Row → List Row → Nat → Except DatabaseError (List Row × Nat)
  | [], chunkResults, currentSkip => .ok (chunkResults, currentSkip)
  | row :: rest, chunkResults, currentSkip =>
    let skip : Bool :=
      match wc with
      | some w => ! bf.mightContain w.column w.value
      | none => false
    if skip then
      scanChunkRows bf wc early effectiveLimit resultsLen columns skipCount
        rest chunkResults currentSkip
    else do
      let (r, currentSkip') ←
        advancedScanProcessRow wc skipCount columns row currentSkip
      match r with
      | some result =>
        let chunkResults' := chunkResults ++ [result]
        if early ∧ chunkResults'.length + resultsLen ≥ effectiveLimit then
          .ok (chunkResults', currentSkip')
        else
          scanChunkRows bf wc early effectiveLimit resultsLen columns skipCount
            rest chunkResults' currentSkip'
      | none =>
        scanChunkRows bf wc early effectiveLimit resultsLen columns skipCount
          rest chunkResults currentSkip'

/-- The chunk loop of `scan_with_bloom_filter`: break when the limit is
reached, per-chunk memory ceiling check, inner row loop, extend results. -/
def scanChunksLoop (s : ChunkedTableScanner) (bf : ColumnBloomFilter)
    (wc : Option WhereClause) (effectiveLimit : Nat) (columns : List String)
    (skipCount : Nat) :
    List (List Row) → List Row → Nat → Except DatabaseError (List Row) :=
  fun chunks results currentSkip =>
    match chunks with
    | [] => .ok results
    | chunk :: rest =>
      if s.earlyTerminationEnabled ∧ results.length ≥ effectiveLimit then
        .ok results
      else if estimateChunkMemoryUsage chunk > s.maxMemoryMb * 1024 * 1024 then
        .error .queryTooComplex
      else do
        let (chunkResults, currentSkip') ←
          scanChunkRows bf wc s.earlyTerminationEnabled effectiveLimit
            results.length columns skipCount chunk [] currentSkip
        scanChunksLoop s bf wc effectiveLimit columns skipCount rest
          (results ++ chunkResults) currentSkip'

/-- `ChunkedTableScanner::scan_with_bloom_filter`, specialised to the
processor `select_with_advanced_scan` passes it: whole-scan Bloom skip, chunk
loop, final truncation to the limit. -/
def ChunkedTableScanner.scanWithBloomFilter (s : ChunkedTableScanner)
    (tableRows : List Row) (bf : ColumnBloomFilter) (wc : Option WhereClause)
    (limit : Option Nat) (columns : List String) (skipCount : Nat) :
    Except DatabaseError (List Row) :=
  let effectiveLimit := limit.getD usizeMax
  let skipWholeScan :=
    match wc with
    | some w => bf.canSkipScan w.column w.value
    | none => false
  if skipWholeScan then .ok []
  else do
    let results ← scanChunksLoop s bf wc effectiveLimit columns skipCount
      (chunksOf s.chunkSize tableRows) [] 0
    if s.earlyTerminationEnabled ∧ results.length > effectiveLimit then
      return results.take effectiveLimit
    else
      return results

/-! ## src/engine.rs: the Database state -/

/-- `struct TableScanOptions`. -/
structure TableScanOptions where
  useBloomFilter : Bool
  chunkSize : Nat
  maxMemoryMb : Nat
  enableEarlyTermination : Bool
  collectStatistics : Bool
deriving DecidableEq, Repr

/-- `struct Database`.  The `column_cache`, `query_cache` and
`scan_statistics` fields are performance caches that no engine code path
reads back into query results, and the `storage` field carries no state
beyond the database name; they are omitted. -/
structure Database where
  name : String
  tables : List (String × Table)
  bloomFilters : List (String × ColumnBloomFilter)
  tableScanOptions : TableScanOptions
deriving DecidableEq, Repr

/-- `HashMap::get` on the table map. -/
def lookupTable (tables : List (String × Table)) (name : String) :
    Option Table :=
  (tables.find? (fun p => p.1 == name)).map (·.2)

/-- `HashMap::insert` on the table map. -/
def tablesInsert (tables : List (String × Table)) (name : String) (t : Table) :
    List (String × Table) :=
  if tables.any (fun p => p.1 == name) then
    tables.map (fun p => if p.1 == name then (p.1, t) else p)
  else tables ++ [(name, t)]

/-- In-place mutation through `HashMap::get_mut` (no-op on a missing key;
every call site checks presence first). -/
def tablesModify (tables : List (String × Table)) (name : String)
    (f : Table → Table) : List (String × Table) :=
  tables.map (fun p => if p.1 == name then (p.1, f p.2) else p)

/-- `HashMap::remove` on the table map. -/
def tablesRemove (tables : List (String × Table)) (name : String) :
    List (String × Table) :=
  tables.filter (fun p => ¬ p.1 == name)

/-- `.unwrap_or(default)` on a fallible boolean. -/
def exceptGetD : Except DatabaseError Bool → Bool → Bool
  | .ok b, _ => b
  | .error _, d => d

/-- `Database::new` (src/engine.rs:24-43). -/
def Database.new (name : String) : Database :=
  { name, tables := [], bloomFilters := [],
    tableScanOptions :=
      { useBloomFilter := true, chunkSize := 1000, maxMemoryMb := 256,
        enableEarlyTermination := true, collectStatistics := true } }

/-- `Database::rebuild_bloom_filters`: one fresh `ColumnBloomFilter` per
table, built from its current rows. -/
def rebuildBloomFilters (tables : List (String × Table)) :
    List (String × ColumnBloomFilter) :=
  tables.map (fun p =>
    (p.1, ColumnBloomFilter.new.buildFromTable
      (p.2.rows.enum.map (fun q => (q.2.columns, q.1)))))

/-- `Database::load`, with the on-disk file contents passed explicitly:
deserialize the tables, rebuild Bloom filters, use the load-time scan
options (src/engine.rs:89-114). -/
def Database.loadFromBytes (name : String) (bytes : List Nat) :
    Except DatabaseError Database := do
  let tables ← deserializeTables bytes
  return { name, tables, bloomFilters := rebuildBloomFilters tables,
           tableScanOptions :=
             { useBloomFilter := true, chunkSize := 10000, maxMemoryMb := 512,
               enableEarlyTermination := true, collectStatistics := true } }

/-! ## src/engine.rs: select paths -/

/-- The row loop of `Database::select_basic`: predicate, OFFSET skip, LIMIT
break, projection. -/
def selectBasicLoop (wc : Option WhereClause) (columns : List String)
    (skipCount limitCount : Nat) :
    List Row → List Row → Nat → Except DatabaseError (List Row)
  | [], results, _ => .ok results
  | row :: rest, results, currentSkip => do
    let matched ←
      match wc with
      | some w => evaluateWhereClauseOptimized row w
      | none => pure true
    if ! matched then
      selectBasicLoop wc columns skipCount limitCount rest results currentSkip
    else if currentSkip < skipCount then
      selectBasicLoop wc columns skipCount limitCount rest results
        (currentSkip + 1)
    else if results.length ≥ limitCount then
      .ok results
    else
      selectBasicLoop wc columns skipCount limitCount rest
        (results ++ [projectColumnsOptimized row columns]) currentSkip

/-- `Database::select_basic`. -/
def selectBasic (db : Database) (tableName : String) (columns : List String)
    (wc : Option WhereClause) (limit offset : Option Nat) :
    Except DatabaseError (List Row) :=
  match lookupTable db.tables tableName with
  | none => .error (.tableNotFound tableName)
  | some table =>
    selectBasicLoop wc columns (offset.getD 0) (limit.getD usizeMax)
      table.rows [] 0

/-- `Database::select_with_advanced_scan`: Bloom-guided chunked scan when a
Bloom filter set exists for the table, `select_basic` otherwise. -/
def selectWithAdvancedScan (db : Database) (tableName : String)
    (columns : List String) (wc : Option WhereClause)
    (limit offset : Option Nat) : Except DatabaseError (List Row) :=
  match lookupTable db.tables tableName with
  | none => .error (.tableNotFound tableName)
  | some table =>
    if ! db.tableScanOptions.useBloomFilter then
      selectBasic db tableName columns wc limit offset
    else
      match (db.bloomFilters.find? (fun p => p.1 == tableName)).map (·.2) with
      | some bloomFilter =>
        let scanner :=
          (ChunkedTableScanner.new db.tableScanOptions.chunkSize
            db.tableScanOptions.maxMemoryMb).withEarlyTermination
            db.tableScanOptions.enableEarlyTermination
        scanner.scanWithBloomFilter table.rows bloomFilter wc limit columns
          (offset.getD 0)
      | none => selectBasic db tableName columns wc limit offset

/-- `Database::index_key_to_sql_value` (total: the source returns `Ok` in
every arm). -/
def indexKeyToSqlValue : IndexKey → SqlValue
  | .integer i => .integer i
  | .float f => .float f.bits
  | .text s => .text s
  | .boolean b => .boolean b
  | .null => .null

/-- The candidate row-id computation of `select_with_indexes`
(src/engine.rs:520-546), by operator; `NotEqual` enumerates the key universe
and probes every key different from the target. -/
def indexCandidates (index : BTreeIndex) (wc : WhereClause) : List Nat :=
  match wc.operator with
  | .equal => index.findExact wc.value
  | .greaterThan => index.findGreaterThan wc.value
  | .lessThan => index.findLessThan wc.value
  | .greaterThanOrEqual => index.findExact wc.value ++ index.findGreaterThan wc.value
  | .lessThanOrEqual => index.findExact wc.value ++ index.findLessThan wc.value
  | .notEqual =>
    (index.getAllKeys.filter (fun k => k ≠ IndexKey.fromValue wc.value)).flatMap
      (fun k => index.findExact (indexKeyToSqlValue k))

/-- `Database::select_with_indexes`: probe the best index for the predicate
column when one exists, re-verify the predicate on each candidate row id;
otherwise scan all rows.  (The `chunks(1000)` batching of the scan branch has
no semantic effect and is flattened.) -/
def selectWithIndexes (db : Database) (tableName : String)
    (columns : List String) (wc? : Option WhereClause) :
    Except DatabaseError (List Row) :=
  match lookupTable db.tables tableName with
  | none => .error (.tableNotFound tableName)
  | some table =>
    let candidateRowIds : Option (List Nat) :=
      match wc? with
      | some w =>
        match table.indexManager.findBestIndexForQuery w.column with
        | some index => some (indexCandidates index w)
        | none => none
      | none => none
    match candidateRowIds with
    | some rowIds =>
      rowIds.foldlM (fun acc rowId =>
        match table.rows.get? rowId with
        | none => pure acc
        | some row => do
          let keep ←
            match wc? with
            | some w => evaluateWhereClause row w
            | none => pure true
          if keep then pure (acc ++ [projectColumns row columns])
          else pure acc) []
    | none =>
      table.rows.foldlM (fun acc row => do
        let keep ←
          match wc? with
          | some w => evaluateWhereClauseOptimized row w
          | none => pure true
        if keep then pure (acc ++ [projectColumnsOptimized row columns])
        else pure acc) []

/-- The same traversal as `selectWithIndexes`, collecting row ids instead of
projected rows: surviving candidate ids on the index path, matching row
positions on the scan path.  This is the "result as a multiset of row-ids"
the equivalence claim compares. -/
def selectWithIndexesRowIds (db : Database) (tableName : String)
    (wc? : Option WhereClause) : Except DatabaseError (List Nat) :=
  match lookupTable db.tables tableName with
  | none => .error (.tableNotFound tableName)
  | some table =>
    let candidateRowIds : Option (List Nat) :=
      match wc? with
      | some w =>
        match table.indexManager.findBestIndexForQuery w.column with
        | some index => some (indexCandidates index w)
        | none => none
      | none => none
    match candidateRowIds with
    | some rowIds =>
      rowIds.foldlM (fun acc rowId =>
        match table.rows.get? rowId with
        | none => pure acc
        | some row => do
          let keep ←
            match wc? with
            | some w => evaluateWhereClause row w
            | none => pure true
          if keep then pure (acc ++ [rowId]) else pure acc) []
    | none =>
      table.rows.enum.foldlM (fun acc p => do
        let keep ←
          match wc? with
          | some w => evaluateWhereClauseOptimized p.2 w
          | none => pure true
        if keep then pure (acc ++ [p.1]) else pure acc) []

/-- A full table scan with the same predicate, collecting the positions of
the matching rows (the row ids a scan visits, for the multiset
comparison). -/
def fullScanRowIds (db : Database) (tableName : String)
    (wc? : Option WhereClause) : Except DatabaseError (List Nat) :=
  match lookupTable db.tables tableName with
  | none => .error (.tableNotFound tableName)
  | some table =>
    table.rows.enum.foldlM (fun acc p => do
      let keep ←
        match wc? with
        | some w => evaluateWhereClauseOptimized p.2 w
        | none => pure true
      if keep then pure (acc ++ [p.1]) else pure acc) []

/-! ## src/engine.rs: mutating statements -/

/-- `Database::create_table_with_indexes`: build the auto-indexes, install
the empty table (replacing any table of the same name), persist. -/
def createTableWithIndexes (db : Database) (tableName : String)
    (columns : List ColumnDefinition) : Except DatabaseError Unit × Database :=
  match buildAutoIndexes tableName columns with
  | .error e => (.error e, db)
  | .ok indexManager =>
    let table : Table :=
      { name := tableName, columns, rows := [], indexManager, nextRowId := 0 }
    (.ok (), { db with tables := tablesInsert db.tables tableName table })

/-- The row-map construction loop of `insert_row_with_indexes`
(src/engine.rs:452-463): for each schema column, take the value at the
position where the statement names it (silently skipping when the values
list is too short), and reject a missing NOT-NULL non-primary column. -/
def buildRowColumns :
    List ColumnDefinition → List String → List SqlValue →
    List (String × SqlValue) →
    Except DatabaseError (List (String × SqlValue))
  | [], _, _, acc => .ok acc
  | c :: rest, columns, values, acc =>
    match columns.findIdx? (fun x => x == c.name) with
    | some pos =>
      match values.get? pos with
      | some v => buildRowColumns rest columns values (rcInsert acc c.name v)
      | none => buildRowColumns rest columns values acc
    | none =>
      if ¬ c.nullable ∧ ¬ c.primaryKey then
        .error (.columnNotFound
          ("Non-nullable column '" ++ c.name ++ "' requires a value"))
      else buildRowColumns rest columns values acc

/-- The primary-key pre-check of `insert_row_with_indexes`
(src/engine.rs:465-474): when a primary index exists and the new row carries
its column, report the value if its bucket is non-empty. -/
def pkViolationCheck (m : IndexManager)
    (rowColumns : List (String × SqlValue)) : Option SqlValue :=
  match m.getPrimaryKeyIndex with
  | some pkIndex =>
    match rcGet rowColumns pkIndex.columnName with
    | some pkValue =>
      if ¬ (pkIndex.findExact pkValue).isEmpty then some pkValue
      else none
    | none => none
  | none => none

/-- The tail of `insert_row_with_indexes` after the pre-checks pass: the row
id is the pre-increment `next_row_id`, the indexes are updated (partial
mutations kept on failure, as the Rust `?` does), and on success the row is
appended. -/
def insertRowFinish (db : Database) (tableName : String) (table : Table)
    (rowColumns : List (String × SqlValue)) :
    Except DatabaseError Unit × Database :=
  match table.indexManager.insertIntoIndexes rowColumns table.nextRowId with
  | (some e, m2) =>
    (.error e,
     { db with tables := (tablesModify db.tables tableName
         (fun _ =>
           { table with
             nextRowId := table.nextRowId + 1,
             indexManager := m2 })) })
  | (none, m2) =>
    (.ok (),
     { db with tables := (tablesModify db.tables tableName
         (fun _ =>
           { table with
             nextRowId := table.nextRowId + 1,
             indexManager := m2,
             rows := table.rows ++ [⟨rowColumns⟩] })) })

/-- `Database::insert_row_with_indexes`: build the row map, check the
primary index, allocate the row id, insert into the indexes, append the row,
persist. -/
def insertRowWithIndexes (db : Database) (tableName : String)
    (columns : List String) (values : List SqlValue) :
    Except DatabaseError Unit × Database :=
  match lookupTable db.tables tableName with
  | none => (.error (.tableNotFound tableName), db)
  | some table =>
    match buildRowColumns table.columns columns values [] with
    | .error e => (.error e, db)
    | .ok rowColumns =>
      match pkViolationCheck table.indexManager rowColumns with
      | some pkValue =>
        (.error (.primaryKeyViolation
          ("Primary key value " ++ debugSqlValue pkValue ++ " already exists")),
         db)
      | none => insertRowFinish db tableName table rowColumns

/-- Replace the first column definition with the given name
(`iter_mut().find(..)` in the `ModifyColumn` arm touches only the first
match). -/
def modifyFirstColumn (target : ColumnDefinition) :
    List ColumnDefinition → List ColumnDefinition
  | [] => []
  | c :: rest =>
    if c.name == target.name then
      { c with
        dataType := target.dataType,
        nullable := target.nullable,
        primaryKey := target.primaryKey } :: rest
    else c :: modifyFirstColumn target rest

/-- `Database::execute`.  Returned pair: the statement's result and the
engine state afterwards (on an error the state reflects exactly the
mutations the source applies before returning the error).  `CreateDatabase`
only touches the filesystem (out of scope); the `ComplexSelect`,
`CreateCompositeIndex` and `DropIndex` arms are `Ok(vec![])` no-ops in the
source.  Persistence (`save_tables`) has no in-memory effect and its
filesystem errors are out of scope. -/
def execute (db : Database) (stmt : SqlStatement) :
    Except DatabaseError (List Row) × Database :=
  match stmt with
  | .createDatabase _ => (.ok [], db)
  | .createTable tableName columns =>
    let r := createTableWithIndexes db tableName columns
    (r.1.map (fun _ => []), r.2)
  | .insert tableName columns values =>
    let r := insertRowWithIndexes db tableName columns values
    (r.1.map (fun _ => []), r.2)
  | .select tableName columns whereClause limit offset =>
    (selectWithAdvancedScan db tableName columns whereClause limit offset, db)
  | .update tableName setClauses wc? =>
    let indicesE : Except DatabaseError (List Nat) :=
      match wc? with
      | some w =>
        match lookupTable db.tables tableName with
        | none => .error (.tableNotFound tableName)
        | some table =>
          .ok ((table.rows.enum.filter
            (fun p => exceptGetD (evaluateWhereClause p.2 w) false)).map (·.1))
      | none =>
        match lookupTable db.tables tableName with
        | none =>
          -- The source `unwrap()`s here and would panic; the missing table
          -- surfaces as the `TableNotFound` of the `get_mut` just below.
          .error (.tableNotFound tableName)
        | some table => .ok (List.range table.rows.length)
    match indicesE with
    | .error e => (.error e, db)
    | .ok indices =>
      match lookupTable db.tables tableName with
      | none => (.error (.tableNotFound tableName), db)
      | some table =>
        let table' :=
          { table with rows := (table.rows.enum.map (fun p =>
              if indices.contains p.1 then
                ⟨setClauses.foldl (fun cols q => rcInsert cols q.1 q.2)
                  p.2.columns⟩
              else p.2)) }
        (.ok [], { db with tables := (tablesModify db.tables tableName
            (fun _ => table')) })
  | .delete tableName wc? =>
    let indicesE : Except DatabaseError (List Nat) :=
      match wc? with
      | some w =>
        match lookupTable db.tables tableName with
        | none => .error (.tableNotFound tableName)
        | some table =>
          .ok ((table.rows.enum.filter
            (fun p => exceptGetD (evaluateWhereClause p.2 w) false)).map (·.1))
      | none => .ok []
    match indicesE with
    | .error e => (.error e, db)
    | .ok indices =>
      match lookupTable db.tables tableName with
      | none => (.error (.tableNotFound tableName), db)
      | some table =>
        let table' :=
          if wc?.isNone then { table with rows := [] }
          else
            { table with
              rows := ((table.rows.enum.filter
                (fun p => ! indices.contains p.1)).map (·.2)) }
        (.ok [], { db with tables := (tablesModify db.tables tableName
            (fun _ => table')) })
  | .dropTable tableName =>
    (.ok [], { db with tables := tablesRemove db.tables tableName })
  | .dropDatabase _ =>
    (.ok [], { db with tables := [] })
  | .alterTable tableName action =>
    match lookupTable db.tables tableName with
    | none => (.error (.tableNotFound tableName), db)
    | some table =>
      match action with
      | .addColumn column =>
        if table.columns.any (fun c => c.name == column.name) then
          (.error (.parseError
            ("Column '" ++ column.name ++ "' already exists")), db)
        else
          let defaultValue : SqlValue :=
            match column.dataType with
            | .integer => .integer 0
            | .float => .float 0
            | .text => .text ""
            | .boolean => .boolean false
          let table' :=
            { table with
              columns := table.columns ++ [column],
              rows := table.rows.map (fun r =>
                ⟨rcInsert r.columns column.name defaultValue⟩) }
          (.ok [], { db with tables := (tablesModify db.tables tableName
              (fun _ => table')) })
      | .dropColumn columnName =>
        let table' :=
          { table with
            columns := table.columns.filter (fun c => ¬ c.name == columnName),
            rows := table.rows.map (fun r => ⟨rcRemove r.columns columnName⟩) }
        (.ok [], { db with tables := (tablesModify db.tables tableName
            (fun _ => table')) })
      | .modifyColumn column =>
        if table.columns.any (fun c => c.name == column.name) then
          let table' :=
            { table with columns := modifyFirstColumn column table.columns }
          (.ok [], { db with tables := (tablesModify db.tables tableName
              (fun _ => table')) })
        else (.error (.columnNotFound column.name), db)
  | .complexSelect _ => (.ok [], db)
  | .createCompositeIndex _ _ _ _ => (.ok [], db)
  | .dropIndex _ => (.ok [], db)

/-! ## src/smart_parser.rs: the value parser and the INSERT parser

Rust string positions are byte offsets; these parsers are only ever applied
to ASCII statements in this development, where byte offsets and character
offsets coincide, so the model works on character lists. -/

/-- The single-quote, double-quote and backtick characters (written by code
point). -/
def quoteSingle : Char := Char.ofNat 39

def quoteDouble : Char := Char.ofNat 34

def quoteBacktick : Char := Char.ofNat 96

/-- ASCII whitespace (the only whitespace in the statements this development
parses; Rust trims Unicode whitespace). -/
def isWsChar (c : Char) : Bool :=
  c == ' ' || c == Char.ofNat 9 || c == Char.ofNat 10 || c == Char.ofNat 13

/-- `str::trim` (on characters). -/
def strTrim (s : String) : String :=
  ⟨((s.data.dropWhile isWsChar).reverse.dropWhile isWsChar).reverse⟩

/-- ASCII lowercasing of one character (`to_lowercase` is Unicode-wide in
Rust; the keywords compared case-insensitively are ASCII). -/
def asciiLower (c : Char) : Char :=
  if 'A' ≤ c ∧ c ≤ 'Z' then Char.ofNat (c.toNat + 32) else c

/-- ASCII uppercasing of one character. -/
def asciiUpper (c : Char) : Char :=
  if 'a' ≤ c ∧ c ≤ 'z' then Char.ofNat (c.toNat - 32) else c

/-- `str::to_lowercase` (ASCII). -/
def strLower (s : String) : String := ⟨s.data.map asciiLower⟩

/-- `str::to_uppercase` (ASCII). -/
def strUpper (s : String) : String := ⟨s.data.map asciiUpper⟩

/-- First character (the callers guard non-emptiness). -/
def strFrontD (s : String) : Char := s.data.headD (Char.ofNat 0)

/-- Last character (the callers guard non-emptiness). -/
def strBackD (s : String) : Char := s.data.getLastD (Char.ofNat 0)

/-- `str::starts_with` with a string pattern. -/
def strStartsWith (s pre : String) : Bool := pre.data.isPrefixOf s.data

/-- `str::split(',')` (keeps empty pieces, like Rust's `split`). -/
def splitCommaAux : List Char → List Char → List String
  | [], cur => [⟨cur.reverse⟩]
  | c :: rest, cur =>
    if c == ',' then ⟨cur.reverse⟩ :: splitCommaAux rest []
    else splitCommaAux rest (c :: cur)

/-- `str::split(',')` on a string. -/
def splitComma (s : String) : List String := splitCommaAux s.data []

/-- The characters `trim_matches` strips in `normalize_identifier`
(src/modules/identifier.rs): square brackets, backtick, double quote,
single quote and semicolon. -/
def isIdentTrimChar (c : Char) : Bool :=
  c == '[' || c == ']' || c == quoteBacktick || c == quoteDouble ||
  c == quoteSingle || c == ';'

/-- `security::normalize_identifier` (src/modules/identifier.rs):
whitespace trim, then `trim_matches` removing every leading and trailing
quote, bracket or semicolon — repeatedly and without requiring them to
match up. -/
def normalizeIdentifier (s : String) : String :=
  let t := strTrim s
  ⟨((t.data.dropWhile isIdentTrimChar).reverse.dropWhile
      isIdentTrimChar).reverse⟩

/-- `is_quoted_identifier` (src/modules/identifier.rs): at least two
characters with first and last a matching quote or bracket pair.  (The
source compares `token.len()`, a byte count, with 2; on the ASCII inputs of
this development that equals the character count.) -/
def isQuotedIdentifier (t : String) : Bool :=
  t.data.length ≥ 2 &&
    ((strFrontD t == quoteDouble && strBackD t == quoteDouble) ||
     (strFrontD t == quoteBacktick && strBackD t == quoteBacktick) ||
     (strFrontD t == '[' && strBackD t == ']') ||
     (strFrontD t == quoteSingle && strBackD t == quoteSingle))

/-- `security::normalize_table_name` (src/modules/identifier.rs): strip as
`normalize_identifier` does; a quoted name keeps its case, a bare non-empty
name is ASCII-uppercased. -/
def normalizeTableName (s : String) : String :=
  let trimmed := strTrim s
  let isQuoted := isQuotedIdentifier trimmed
  let cleaned := normalizeIdentifier s
  if cleaned.data.isEmpty then cleaned
  else if isQuoted then cleaned
  else strUpper cleaned

/-- The numeric value of a non-empty all-digit character list. -/
def digitsToNat : List Char → Option Nat
  | [] => none
  | cs =>
    cs.foldl (fun acc c =>
      match acc with
      | none => none
      | some n =>
        if '0' ≤ c ∧ c ≤ '9' then some (n * 10 + (c.toNat - 48)) else none)
      (some 0)

/-- Rust `i64::from_str` as used by `parse::<i64>()` (optional sign, decimal
digits, failing outside the `i64` range). -/
def parseI64 (s : String) : Option Int :=
  match s.data with
  | [] => none
  | '-' :: rest =>
    (digitsToNat rest).bind (fun n =>
      if n ≤ 2 ^ 63 then some (-(n : Int)) else none)
  | '+' :: rest =>
    (digitsToNat rest).bind (fun n =>
      if n < 2 ^ 63 then some ((n : Int)) else none)
  | cs =>
    (digitsToNat cs).bind (fun n =>
      if n < 2 ^ 63 then some ((n : Int)) else none)

/-- Modelled from the spec (§4.8): a literal containing a dot parses through
`f64` (`parse::<f64>()`); exact decimal-to-binary rounding is outside this
bit-pattern embedding, and no theorem below evaluates this branch (every
input either is quoted or contains no dot). -/
def parseFloatBits (_s : String) : Option Nat := none

/-- `AnySQL::parse_value_anysql`: NULL / TRUE / FALSE, quoted text (any of
the three quote characters), float (dot present), integer, text fallback. -/
def parseValueAnysql (valueStr : String) : Except DatabaseError SqlValue :=
  let v := strTrim valueStr
  if strLower v == "null" then .ok .null
  else if strLower v == "true" then .ok (.boolean true)
  else if strLower v == "false" then .ok (.boolean false)
  else if v.data.length ≥ 1 &&
      ((strFrontD v == quoteSingle && strBackD v == quoteSingle) ||
       (strFrontD v == quoteDouble && strBackD v == quoteDouble) ||
       (strFrontD v == quoteBacktick && strBackD v == quoteBacktick)) then
    -- (On the 1-character string consisting of a quote alone the source
    -- panics on the byte slice; here it yields empty text.  Unreached.)
    .ok (.text ⟨(v.data.drop 1).dropLast⟩)
  else
    match (if v.data.any (· == '.') then parseFloatBits v else none) with
    | some bits => .ok (.float bits)
    | none =>
      match parseI64 v with
      | some i => .ok (.integer i)
      | none => .ok (.text v)

/-- First index at which `sub` occurs in `hay` (Rust `str::find` with a
string pattern). -/
def charListIndexOfSub (hay sub : List Char) : Option Nat :=
  if sub.isPrefixOf hay then some 0
  else
    match hay with
    | [] => none
    | _ :: t => (charListIndexOfSub t sub).map (· + 1)

/-- `str::find` with a string pattern, on characters. -/
def strFind (hay sub : String) : Option Nat :=
  charListIndexOfSub hay.data sub.data

/-- `str::find` with a char pattern. -/
def strFindChar (s : String) (c : Char) : Option Nat :=
  s.data.findIdx? (· == c)

/-- `str::rfind` with a char pattern. -/
def strRFindChar (s : String) (c : Char) : Option Nat :=
  match s.data.reverse.findIdx? (· == c) with
  | some i => some (s.data.length - 1 - i)
  | none => none

/-- The slice `s[a..b]`. -/
def strSlice (s : String) (a b : Nat) : String := ⟨(s.data.drop a).take (b - a)⟩

/-- The slice `s[a..]`. -/
def strDrop (s : String) (a : Nat) : String := ⟨s.data.drop a⟩

/-- `str::split_whitespace`. -/
def splitWsAux : List Char → List Char → List String
  | [], cur => if cur.isEmpty then [] else [⟨cur.reverse⟩]
  | c :: rest, cur =>
    if isWsChar c then
      if cur.isEmpty then splitWsAux rest []
      else ⟨cur.reverse⟩ :: splitWsAux rest []
    else splitWsAux rest (c :: cur)

/-- `str::split_whitespace` on a string. -/
def splitWs (s : String) : List String := splitWsAux s.data []

/-- `AnySQL::parse_insert_anysql` (src/smart_parser.rs:611-686): strip the
INSERT prefix, take the table token, locate VALUES, read the parenthesised
column list between the table name and VALUES — recording `["*"]` when there
is none — then split and parse the parenthesised value list. -/
def parseInsertAnysql (sql : String) : Except DatabaseError SqlStatement :=
  let sqlUpper := strUpper sql
  let insertPos? : Option Nat :=
    if strStartsWith sqlUpper "INSERT INTO" then some 11
    else if strStartsWith sqlUpper "INSERT" then some 6
    else none
  match insertPos? with
  | none => .error (.parseError "Invalid INSERT syntax")
  | some insertPos =>
    let remaining := strTrim (strDrop sql insertPos)
    let tokens := splitWs remaining
    match tokens.head? with
    | none => .error (.parseError "Missing table name in INSERT")
    | some rawTableToken =>
      let tableName := normalizeTableName rawTableToken
      match strFind sqlUpper "VALUES" with
      | none => .error (.parseError "Missing VALUES clause")
      | some valuesPos =>
        match strFind sql rawTableToken with
        | none => .error (.parseError "Unable to locate table name")
        | some rawTablePos =>
          let tableEnd := rawTablePos + rawTableToken.length
          let columnsPart := strSlice sql tableEnd valuesPos
          let columns : List String :=
            match strFindChar columnsPart '(' with
            | some start =>
              match strFindChar columnsPart ')' with
              | some stop =>
                (splitComma (strSlice columnsPart (start + 1) stop)).map
                  normalizeIdentifier
              | none => ["*"]
            | none => ["*"]
          let valuesPart := strDrop sql (valuesPos + 6)
          match strFindChar valuesPart '(' with
          | none => .error (.parseError "Missing opening parenthesis in VALUES")
          | some startPos =>
            match strRFindChar valuesPart ')' with
            | none =>
              .error (.parseError "Missing closing parenthesis in VALUES")
            | some endPos => do
              let valuesStr := strSlice valuesPart (startPos + 1) endPos
              let values ← (splitComma valuesStr).mapM
                (fun vs => parseValueAnysql (strTrim vs))
              return .insert tableName columns values

/-! ## Concrete scenario states

Engine states constructed by running `execute` from `Database::new`, used by
the claim theorems below. -/

/-- CREATE TABLE t (a INT NOT NULL): one NOT-NULL non-primary column, so the
auto-index idx_t_a is installed. -/
def dbC1a : Database :=
  (execute (Database.new "d1")
    (.createTable "t" [⟨"a", .integer, false, false⟩])).2

/-- ... after INSERT INTO t (a) VALUES (1). -/
def dbC1b : Database := (execute dbC1a (.insert "t" ["a"] [.integer 1])).2

/-- ... after UPDATE t SET a = 2 (the Update arm rewrites the row value but
leaves idx_t_a untouched). -/
def dbC1c : Database := (execute dbC1b (.update "t" [("a", .integer 2)] none)).2

/-- The predicate a = 2. -/
def wcC1 : WhereClause := ⟨"a", .equal, .integer 2⟩

/-- The users table of the spec's scenario 1:
id INTEGER PRIMARY KEY, name VARCHAR NOT NULL. -/
def usersColumns : List ColumnDefinition :=
  [⟨"id", .integer, true, true⟩, ⟨"name", .text, false, false⟩]

def dbC3a : Database :=
  (execute (Database.new "d3") (.createTable "users" usersColumns)).2

/-- INSERT INTO users (id, name) VALUES (1, 'Alice'). -/
def insAlice : SqlStatement :=
  .insert "users" ["id", "name"] [.integer 1, .text "Alice"]

def dbC3b : Database := (execute dbC3a insAlice).2

/-- DELETE FROM users WHERE id = 1. -/
def delC3 : SqlStatement := .delete "users" (some ⟨"id", .equal, .integer 1⟩)

def dbC3c : Database := (execute dbC3b delC3).2


/-- A table t with a single nullable INTEGER column a and no rows, as written
to disk (its serialized image is what `Database::load` reads back). -/
def tableC4 : Table :=
  { name := "t", columns := [⟨"a", .integer, true, false⟩], rows := [],
    indexManager := IndexManager.new, nextRowId := 0 }

def bytesC4 : List Nat := serializeTables [("t", tableC4)]

/-- The engine state `Database::load` produces from `bytesC4` (Bloom filter
set rebuilt — empty, since the table has no rows). -/
def dbC4a : Database :=
  ((Database.loadFromBytes "d4" bytesC4).toOption).getD (Database.new "d4")

def insC4 : SqlStatement := .insert "t" ["a"] [.integer 1]

def dbC4b : Database := (execute dbC4a insC4).2

def wcC4 : WhereClause := ⟨"a", .equal, .integer 1⟩

def selC4 : SqlStatement := .select "t" ["*"] (some wcC4) none none




/-- CREATE TABLE t (x FLOAT): one nullable Float column. -/
def dbC8a : Database :=
  (execute (Database.new "d8")
    (.createTable "t" [⟨"x", .float, true, false⟩])).2

/-- INSERT INTO t (x) VALUES ('NaN') as the analyzer delivers it: the quoted
literal parses to Text. -/
def insNaN : SqlStatement := .insert "t" ["x"] [.text "NaN"]




/-- CREATE TABLE t9 (a INT NOT NULL). -/
def dbC9a : Database :=
  (execute (Database.new "d9")
    (.createTable "t9" [⟨"a", .integer, false, false⟩])).2

/-- An Insert naming the NOT-NULL column a but supplying no values. -/
def insC9a : SqlStatement := .insert "t9" ["a"] []

/-- CREATE TABLE t9b (id INT NOT NULL PRIMARY KEY, name TEXT). -/
def dbC9b : Database :=
  (execute (Database.new "d9b")
    (.createTable "t9b"
      [⟨"id", .integer, false, true⟩, ⟨"name", .text, true, false⟩])).2

/-- An Insert omitting the NOT-NULL primary-key column entirely. -/
def insC9b : SqlStatement := .insert "t9b" ["name"] [.text "n"]

/-- CREATE TABLE t9c (b INT); then one row inserted without b; then
ALTER TABLE t9c MODIFY COLUMN b INT NOT NULL. -/
def dbC9c : Database :=
  (execute (execute (Database.new "d9c")
      (.createTable "t9c" [⟨"b", .integer, true, false⟩])).2
    (.insert "t9c" [] [])).2

def modC9 : SqlStatement :=
  .alterTable "t9c" (.modifyColumn ⟨"b", .integer, false, false⟩)

/-- SELECT * FROM users WHERE id = 1. -/
def selC5 : SqlStatement :=
  .select "users" ["*"] (some ⟨"id", .equal, .integer 1⟩) none none

/-- The stored Alice row (column-map iteration order as the insert built
it). -/
def rowAlice : Row := ⟨[("id", .integer 1), ("name", .text "Alice")]⟩

/-- The same row map in its two iteration orders. -/
def rowE1 : Row := ⟨[("a", .integer 1), ("b", .integer 2)]⟩

def rowE2 : Row := ⟨[("b", .integer 2), ("a", .integer 1)]⟩

def dbC2 : Database :=
  (execute (execute (Database.new "d2")
      (.createTable "t"
        [⟨"a", .integer, true, false⟩, ⟨"b", .integer, true, false⟩])).2
    (.insert "t" ["a", "b"] [.integer 1, .integer 2])).2

def tablesC2 : List (String × Table) := dbC2.tables

/-- The same engine state with the row map presented in its other iteration
order (Rust fixes no iteration order for `HashMap`, so both lists denote the
same in-memory state). -/
def tablesC2x : List (String × Table) :=
  tablesC2.map (fun p => (p.1, { p.2 with rows := [rowE2] }))

/-! ## The claims -/

/-- C1.  The claim says that for every reachable table state and WHERE
predicate, the index-based select path and a full scan agree as multisets of
row ids.  The code violates it: the Update arm rewrites row values without
touching the indexes, so after CREATE TABLE t (a INT NOT NULL); INSERT (a=1);
UPDATE SET a = 2, the predicate a = 2 finds no candidates through the stale
index idx_t_a while the full scan returns row 0. -/
theorem indexPathVsScan_divergence :
    selectWithIndexesRowIds dbC1c "t" (some wcC1) = .ok []
    ∧ fullScanRowIds dbC1c "t" (some wcC1) = .ok [0]
    ∧ Multiset.ofList ([] : List Nat) ≠ Multiset.ofList [0] :=
  ⟨by decide, by decide, by decide⟩

/-- C2.  The claim says serialize-deserialize-serialize is the identity on
bytes.  The codec emits a row's columns in the `HashMap` iteration order,
which deserialization does not pin down: the same single-row table presented
in its two iteration orders serializes to different byte streams while
holding the same column map, so the bytes a reload re-emits are not
determined — the round trip is not the identity on bytes. -/
theorem serializeOrderDependence :
    Multiset.ofList rowE1.columns = Multiset.ofList rowE2.columns
    ∧ serializeTables tablesC2 ≠ serializeTables tablesC2x
    ∧ (deserializeTables (serializeTables tablesC2)).map
        (fun ts => ts.map (fun p => p.2.rows.map Row.columns)) =
        .ok [[rowE1.columns]] :=
  ⟨by decide, by decide, by decide⟩

/-- C3.  The claim says insert(v); delete(where pk = v); insert(v) succeeds
and leaves one row.  The Delete arm removes rows without removing their index
entries, so the pk_id index still holds key 1 and the second insert fails
with PrimaryKeyViolation. -/
theorem insertDeleteInsertFails :
    (execute dbC3a insAlice).1 = .ok []
    ∧ (execute dbC3b delC3).1 = .ok []
    ∧ (lookupTable dbC3c.tables "users").map Table.rows = some []
    ∧ (execute dbC3c insAlice).1 =
        .error (.primaryKeyViolation
          "Primary key value Integer(1) already exists") :=
  ⟨by decide, by decide, by decide, by decide⟩

/-- C4 counterexample.  The claim says that after every sequence of
successful executes the per-column Bloom filter reports every stored value
present, so a Bloom-guided scan never skips a matching row.  Bloom filters
are only built by load; inserting into a loaded empty table leaves its
(empty) filter set stale, `might_contain` answers false for the fresh value,
and the Bloom-guided SELECT skips the matching row a basic scan returns. -/
theorem bloomScanSkipsFreshRow :
    Database.loadFromBytes "d4" bytesC4 = .ok dbC4a
    ∧ (execute dbC4a insC4).1 = .ok []
    ∧ (lookupTable dbC4b.tables "t").map Table.rows =
        some [⟨[("a", .integer 1)]⟩]
    ∧ ((dbC4b.bloomFilters.find? (fun p => p.1 == "t")).map
        (fun p => p.2.mightContain "a" (.integer 1))) = some false
    ∧ (execute dbC4b selC4).1 = .ok []
    ∧ selectBasic dbC4b "t" ["*"] (some wcC4) none none =
        .ok [⟨[("a", .integer 1)]⟩] :=
  ⟨by decide, by decide, by decide, by decide, by decide, by decide⟩

/-- C5 counterexample.  The claim says SELECT * FROM users WHERE id = 1 (on
the scenario-1 table) chooses the primary index plan and increments the
planner statistics for pk_id by one.  The Select arm only calls
`select_with_advanced_scan`, which never consults an index or the planner:
the row comes back correctly, the engine state is unchanged, and the pk_id
statistics entry still does not exist afterwards. -/
theorem selectIgnoresPlannerStats :
    (execute dbC3b selC5).1 = .ok [rowAlice]
    ∧ (execute dbC3b selC5).2 = dbC3b
    ∧ ((lookupTable (execute dbC3b selC5).2.tables "users").map
        (fun tb => statsLookup tb.indexManager.getQueryOptimizerStats "pk_id"))
        = some none :=
  ⟨by decide, by decide, by decide⟩

/-- C6 counterexample.  The claim says next_row_id never decreases across
executions, including a save followed by a load.  next_row_id is not
serialized: after insert + delete the users table has next_row_id 1 and no
rows; reloading its serialized image resets next_row_id to the row count 0,
a decrease. -/
theorem nextRowIdResetOnLoad :
    (lookupTable dbC3c.tables "users").map Table.nextRowId = some 1
    ∧ (deserializeTables (serializeTables dbC3c.tables)).map
        (fun ts => (lookupTable ts "users").map Table.nextRowId) =
        .ok (some 0) :=
  ⟨by decide, by decide⟩

/-- The bit patterns of a quiet NaN, 1.0 and 2.0. -/
def nanBits : Nat := 0x7FF8000000000000

def oneBits : Nat := 0x3FF0000000000000

def twoBits : Nat := 0x4000000000000000

/-- C7 counterexample.  The claim says the OrderedFloat comparison is a
lawful total order in which NaN compares greater than (or, alternatively,
smaller than) every non-NaN value.  In the code `cmp` is
`partial_cmp(..).unwrap_or(Equal)`: NaN compares Equal to 1.0 in both
directions while `eq` (bit equality) denies it — antisymmetry fails — and
1.0 ≈ NaN ≈ 2.0 with 1.0 < 2.0 breaks transitivity; NaN is neither greatest
nor smallest. -/
theorem orderedFloatNotLawful :
    OrderedFloat.cmp ⟨nanBits⟩ ⟨oneBits⟩ = .eq
    ∧ OrderedFloat.cmp ⟨oneBits⟩ ⟨nanBits⟩ = .eq
    ∧ OrderedFloat.beq ⟨nanBits⟩ ⟨oneBits⟩ = false
    ∧ OrderedFloat.cmp ⟨oneBits⟩ ⟨twoBits⟩ = .lt
    ∧ OrderedFloat.cmp ⟨nanBits⟩ ⟨twoBits⟩ = .eq :=
  ⟨by decide, by decide, by decide, by decide, by decide⟩

/-- C8 counterexample.  The claim says INSERT INTO t (x) VALUES ('NaN') into
a Float column fails with InvalidDataType and stores no row.  The analyzer
indeed yields Text("NaN"), but the engine performs no data-type check on
insert: the statement succeeds and the Text value is stored in the Float
column. -/
theorem nanInsertStored :
    parseValueAnysql "'NaN'" = .ok (.text "NaN")
    ∧ (execute dbC8a insNaN).1 = .ok []
    ∧ (lookupTable (execute dbC8a insNaN).2.tables "t").map Table.rows =
        some [⟨[("x", .text "NaN")]⟩] :=
  ⟨by decide, by decide, by decide⟩

/-- C7 amended.  What does hold of the OrderedFloat comparison: it is total
and deterministic (a function into `Ordering`), reflexive, bitwise-equal
floats compare Equal, and a NaN compares Equal to every value in both
directions — which is exactly why it is not antisymmetric or transitive. -/
theorem orderedFloatCmpProperties :
    (∀ a : OrderedFloat, OrderedFloat.cmp a a = .eq)
    ∧ (∀ a b : OrderedFloat, OrderedFloat.beq a b = true →
        OrderedFloat.cmp a b = .eq)
    ∧ (∀ a b : OrderedFloat, f64IsNan a.bits = true →
        OrderedFloat.cmp a b = .eq ∧ OrderedFloat.cmp b a = .eq) := by
  have hrefl : ∀ a : OrderedFloat, OrderedFloat.cmp a a = .eq := by
    intro a
    unfold OrderedFloat.cmp f64PartialCmp
    by_cases h : f64IsNan a.bits
    · simp [h]
    · simp only [h, Bool.or_self, Bool.false_eq_true, if_false]
      split_ifs <;> simp_all [Nat.compare_eq_eq]
  refine ⟨hrefl, ?_, ?_⟩
  · intro a b hab
    obtain ⟨x⟩ := a
    obtain ⟨y⟩ := b
    have : x = y := by simpa [OrderedFloat.beq] using hab
    subst this
    exact hrefl ⟨x⟩
  · intro a b h
    constructor <;> · unfold OrderedFloat.cmp f64PartialCmp; simp [h]

/-- C7 witness: the amended properties at concrete bit patterns. -/
theorem orderedFloatCmpProperties_witness :
    OrderedFloat.cmp ⟨oneBits⟩ ⟨oneBits⟩ = .eq
    ∧ OrderedFloat.cmp ⟨nanBits⟩ ⟨oneBits⟩ = .eq := by
  exact ⟨orderedFloatCmpProperties.1 ⟨oneBits⟩,
    (orderedFloatCmpProperties.2.2 ⟨nanBits⟩ ⟨oneBits⟩ (by decide)).1⟩

/-- `leBytes` produces exactly `n` bytes. -/
theorem leBytes_length : ∀ (n x : Nat), (leBytes n x).length = n
  | 0, _ => rfl
  | n + 1, x => by simp [leBytes, leBytes_length n (x / 256)]

/-- Reading back little-endian bytes recovers the value modulo `256 ^ n`. -/
theorem leVal_leBytes : ∀ (n x : Nat), leVal (leBytes n x) = x % 256 ^ n
  | 0, x => by simp [leBytes, leVal, Nat.mod_one]
  | n + 1, x => by
    have ih := leVal_leBytes n (x / 256)
    simp only [leBytes, leVal, List.foldr_cons] at ih ⊢
    rw [ih, pow_succ' 256 n, Nat.mod_mul]

/-- C8 amended.  What does hold: the analyzer yields Text("NaN"), the engine
stores it in the Float column without any type check (no InvalidDataType),
and a programmatically constructed Float — NaN included — round-trips
bit-exactly through the persistence codec. -/
theorem nanTextInsertAndFloatRoundTrip :
    parseValueAnysql "'NaN'" = .ok (.text "NaN")
    ∧ (lookupTable (execute dbC8a insNaN).2.tables "t").map Table.rows =
        some [⟨[("x", .text "NaN")]⟩]
    ∧ (∀ bits : Nat, bits < 2 ^ 64 →
        deserializeSqlValue (serializeSqlValue (.float bits)) 0 =
          .ok (.float bits, 9)) := by
  refine ⟨by decide, by decide, ?_⟩
  intro bits h
  have hlen : (leBytes 8 bits).length = 8 := leBytes_length 8 bits
  have hread : leRead (1 :: leBytes 8 bits) 1 8 = bits := by
    unfold leRead
    have htake : ((1 :: leBytes 8 bits).drop 1).take 8 = leBytes 8 bits := by
      simp [List.take_of_length_le, hlen.le]
    rw [htake, leVal_leBytes]
    have : (256 : Nat) ^ 8 = 2 ^ 64 := by norm_num
    rw [this]
    exact Nat.mod_eq_of_lt h
  unfold serializeSqlValue deserializeSqlValue
  simp [hlen, hread]

/-- C8 witness: the float round trip applied at the quiet-NaN bit
pattern. -/
theorem nanTextInsertAndFloatRoundTrip_witness :
    deserializeSqlValue (serializeSqlValue (.float nanBits)) 0 =
      .ok (.float nanBits, 9) :=
  nanTextInsertAndFloatRoundTrip.2.2 nanBits (by decide)

/-- Setting a list element to `true` and reading it back. -/
theorem getD_set_self : ∀ (l : List Bool) (i : Nat), i < l.length →
    (l.set i true).getD i false = true
  | [], i, h => absurd h (by simp)
  | _ :: _, 0, _ => rfl
  | b :: t, i + 1, h => by
    simpa [List.getD] using getD_set_self t i (by simpa using h)

/-- Setting an element to `true` never clears a `true` bit. -/
theorem getD_set_mono : ∀ (l : List Bool) (i j : Nat),
    l.getD j false = true → (l.set i true).getD j false = true
  | [], _, _, h => by simp [List.getD] at h
  | _ :: _, 0, 0, _ => rfl
  | _ :: _, 0, _ + 1, h => by simpa [List.getD] using h
  | _ :: _, _ + 1, 0, h => by simpa [List.getD] using h
  | b :: t, i + 1, j + 1, h => by
    simpa [List.getD] using getD_set_mono t i j (by simpa [List.getD] using h)

/-- A fold of bit sets never clears a `true` bit. -/
theorem foldl_set_mono (ps : List Nat) (arr : List Bool) (j : Nat)
    (h : arr.getD j false = true) :
    (ps.foldl (fun a p => a.set p true) arr).getD j false = true := by
  induction ps generalizing arr with
  | nil => exact h
  | cons p ps ih => exact ih _ (getD_set_mono _ _ _ h)

/-- After folding bit sets over the positions `ps`, every position of `ps`
reads `true`. -/
theorem foldl_set_true (ps : List Nat) (arr : List Bool)
    (hb : ∀ p ∈ ps, p < arr.length) :
    ∀ q ∈ ps, (ps.foldl (fun a p => a.set p true) arr).getD q false = true := by
  induction ps generalizing arr with
  | nil => intro q hq; cases hq
  | cons p ps ih =>
    intro q hq
    rcases List.mem_cons.mp hq with rfl | hq'
    · exact foldl_set_mono ps _ q
        (getD_set_self arr q (hb q (List.mem_cons_self _ _)))
    · exact ih (arr.set p true)
        (fun r hr => by
          simpa [List.length_set] using hb r (List.mem_cons_of_mem _ hr))
        q hq'

/-- C4 amended.  The zero-false-negative property holds of the Bloom filter
itself: inserting a value makes `contains` report it present, and any later
insert preserves that.  (The engine, however, only builds the per-table
filters on load and never updates them on Insert, so the property fails for
rows inserted after the filter was built — the counterexample.) -/
theorem bloomInsertNoFalseNegatives :
    (∀ (f : BloomFilter) (v : SqlValue), 0 < f.size →
        f.bitArray.length = f.size →
        (f.insertValue v).containsValue v = true)
    ∧ (∀ (f : BloomFilter) (v w : SqlValue), f.containsValue v = true →
        (f.insertValue w).containsValue v = true) := by
  constructor
  · intro f v hsize hlen
    unfold BloomFilter.insertValue BloomFilter.containsValue
    simp only [List.all_eq_true]
    intro i hi
    rw [← List.foldl_map (fun j => hashValue v j % f.size)
      (fun (a : List Bool) p => a.set p true) (List.range f.hashFunctions)
      f.bitArray]
    refine foldl_set_true _ _ ?_ _ (List.mem_map_of_mem _ hi)
    intro p hp
    rcases List.mem_map.mp hp with ⟨j, _, rfl⟩
    rw [hlen]
    exact Nat.mod_lt _ hsize
  · intro f v w h
    unfold BloomFilter.insertValue BloomFilter.containsValue
    unfold BloomFilter.containsValue at h
    simp only [List.all_eq_true] at h ⊢
    intro i hi
    rw [← List.foldl_map (fun j => hashValue w j % f.size)
      (fun (a : List Bool) p => a.set p true) (List.range f.hashFunctions)
      f.bitArray]
    exact foldl_set_mono _ _ _ (h i hi)

/-- C4 witness: the amended properties at a concrete filter and value. -/
theorem bloomInsertNoFalseNegatives_witness :
    ((BloomFilter.newWithParams 8 2).insertValue (.integer 5)).containsValue
      (.integer 5) = true
    ∧ (((BloomFilter.newWithParams 8 2).insertValue (.integer 5)).insertValue
        .null).containsValue (.integer 5) = true := by
  constructor
  · exact bloomInsertNoFalseNegatives.1 _ _ (by decide) (by decide)
  · exact bloomInsertNoFalseNegatives.2 _ _ _
      (bloomInsertNoFalseNegatives.1 _ _ (by decide) (by decide))

/-- C5 amended.  What does hold: whenever the engine has no Bloom filter set
for the table (true for every engine created by `Database::new`, which never
builds one), the Select arm is exactly `select_basic` — a full scan that
consults no index and leaves the engine state, hence every planner
statistic, unchanged; on the scenario-1 table it returns the stored row and
the pk_id statistics entry remains absent. -/
theorem selectDelegatesToBasicScan :
    (∀ (db : Database) (t : String) (cols : List String)
        (wc : Option WhereClause) (l o : Option Nat),
      db.bloomFilters.find? (fun p => p.1 == t) = none →
      execute db (.select t cols wc l o) = (selectBasic db t cols wc l o, db))
    ∧ (execute dbC3b selC5).1 = .ok [rowAlice]
    ∧ ((lookupTable (execute dbC3b selC5).2.tables "users").map
        (fun tb => statsLookup tb.indexManager.getQueryOptimizerStats "pk_id"))
        = some none := by
  refine ⟨?_, by decide, by decide⟩
  intro db t cols wc l o h
  show (selectWithAdvancedScan db t cols wc l o, db) = _
  unfold selectWithAdvancedScan
  cases hl : lookupTable db.tables t with
  | none => simp [selectBasic, hl]
  | some table =>
    simp only [h, Option.map_none']
    by_cases hb : db.tableScanOptions.useBloomFilter <;> simp [hb]

/-- C5 witness: the delegation applied at the scenario-1 state. -/
theorem selectDelegatesToBasicScan_witness :
    execute dbC3b selC5 =
      (selectBasic dbC3b "users" ["*"]
        (some ⟨"id", .equal, .integer 1⟩) none none, dbC3b) :=
  selectDelegatesToBasicScan.1 dbC3b "users" ["*"]
    (some ⟨"id", .equal, .integer 1⟩) none none (by decide)

/-- Looking a key up after an in-place modification of that key's entry. -/
theorem lookupTable_tablesModify (ts : List (String × Table)) (n : String)
    (f : Table → Table) :
    lookupTable (tablesModify ts n f) n = (lookupTable ts n).map f := by
  induction ts with
  | nil => rfl
  | cons p ts ih =>
    obtain ⟨k, v⟩ := p
    by_cases hk : k == n
    · have hk' : (k == n) = true := hk
      simp [tablesModify, lookupTable, hk', List.find?]
    · have hk' : (k == n) = false := by simpa using hk
      simp only [tablesModify, lookupTable, List.map_cons, hk', if_false,
        List.find?] at ih ⊢
      simpa [hk'] using ih

/-- The row-map builder ignores every schema column when the statement's
column list is `["*"]` and no schema column is named `*`; with no
non-nullable non-primary column it returns the accumulator unchanged. -/
theorem buildRowColumns_star_ok :
    ∀ (cols : List ColumnDefinition) (vals : List SqlValue)
      (acc : List (String × SqlValue)),
      (∀ c ∈ cols, ¬ c.name = "*") →
      (∀ c ∈ cols, c.nullable = true ∨ c.primaryKey = true) →
      buildRowColumns cols ["*"] vals acc = .ok acc
  | [], _, _, _, _ => rfl
  | c :: rest, vals, acc, hstar, hnul => by
    have hname : ("*" == c.name) = false := by
      have := hstar c (List.mem_cons_self _ _)
      simpa using fun hh => this (by simpa using hh.symm)
    have hfind : List.findIdx? (fun x => x == c.name) ["*"] = none := by
      simp [List.findIdx?, hname]
    unfold buildRowColumns
    rw [hfind]
    have hcond : ¬ (¬ c.nullable = true ∧ ¬ c.primaryKey = true) := by
      rcases hnul c (List.mem_cons_self _ _) with h | h <;> simp [h]
    rw [if_neg hcond]
    exact buildRowColumns_star_ok rest vals acc
      (fun d hd => hstar d (List.mem_cons_of_mem _ hd))
      (fun d hd => hnul d (List.mem_cons_of_mem _ hd))

/-- With a `["*"]` column list and some non-nullable non-primary schema
column, the row-map builder fails with ColumnNotFound. -/
theorem buildRowColumns_star_err :
    ∀ (cols : List ColumnDefinition) (vals : List SqlValue)
      (acc : List (String × SqlValue)),
      (∀ c ∈ cols, ¬ c.name = "*") →
      (∃ c ∈ cols, c.nullable = false ∧ c.primaryKey = false) →
      ∃ m, buildRowColumns cols ["*"] vals acc = .error (.columnNotFound m)
  | [], _, _, _, hex => absurd hex (by simp)
  | c :: rest, vals, acc, hstar, hex => by
    have hname : ("*" == c.name) = false := by
      have := hstar c (List.mem_cons_self _ _)
      simpa using fun hh => this (by simpa using hh.symm)
    have hfind : List.findIdx? (fun x => x == c.name) ["*"] = none := by
      simp [List.findIdx?, hname]
    unfold buildRowColumns
    rw [hfind]
    by_cases hc : ¬ c.nullable = true ∧ ¬ c.primaryKey = true
    · rw [if_pos hc]
      exact ⟨_, rfl⟩
    · rw [if_neg hc]
      refine buildRowColumns_star_err rest vals acc
        (fun d hd => hstar d (List.mem_cons_of_mem _ hd)) ?_
      rcases hex with ⟨d, hd, hprop⟩
      rcases List.mem_cons.mp hd with rfl | hd'
      · exact absurd ⟨by simp [hprop.1], by simp [hprop.2]⟩ hc
      · exact ⟨d, hd', hprop⟩

/-- Inserting an empty row map into the indexes touches nothing and cannot
fail (given no composite indexes — `execute` never creates one). -/
theorem insertIntoIndexes_empty (m : IndexManager) (rid : Nat)
    (hc : m.compositeIndexes = []) :
    (m.insertIntoIndexes [] rid).1 = none := by
  unfold IndexManager.insertIntoIndexes
  have hfold : ∀ (l : List BTreeIndex) (acc : List BTreeIndex),
      (l.foldl (fun (acc : (Option DatabaseError) × List BTreeIndex)
        (idx : BTreeIndex) =>
        match acc.1 with
        | some _ => (acc.1, acc.2 ++ [idx])
        | none =>
          match rcGet [] idx.columnName with
          | some v =>
            match idx.insertKey v rid with
            | .ok idx' => (none, acc.2 ++ [idx'])
            | .error e => (some e, acc.2 ++ [idx])
          | none => (none, acc.2 ++ [idx])) (none, acc)).1 = none := by
    intro l
    induction l with
    | nil => intro acc; rfl
    | cons idx rest ih => intro acc; exact ih (acc ++ [idx])
  simp only [hfold]
  unfold IndexManager.insertIntoCompositeIndexes
  simp [hc]

/-- C10.  An Insert parsed without an explicit column list carries the
column list `["*"]` (first conjunct: a concrete run of the INSERT parser;
the bare table name comes out as `"T"` because `normalize_table_name`
ASCII-uppercases unquoted identifiers), and `execute` then stores none of
the supplied values: if the table has a non-nullable non-primary column the
statement fails with ColumnNotFound and leaves the engine unchanged;
otherwise it succeeds and appends a row with an empty column map.
(Hypotheses: no schema column is literally named `*`, and the table carries
no composite indexes — `execute`'s CreateCompositeIndex arm is a no-op, so
no reachable table has any.) -/
theorem starInsertBehaviour :
    parseInsertAnysql "INSERT INTO t VALUES (1)" =
      .ok (.insert "T" ["*"] [.integer 1])
    ∧ (∀ (db : Database) (t : String) (vals : List SqlValue) (tab : Table),
      lookupTable db.tables t = some tab →
      (∀ c ∈ tab.columns, ¬ c.name = "*") →
      tab.indexManager.compositeIndexes = [] →
      ((∃ c ∈ tab.columns, c.nullable = false ∧ c.primaryKey = false) →
        ∃ m, execute db (.insert t ["*"] vals) =
          (.error (.columnNotFound m), db))
      ∧ ((∀ c ∈ tab.columns, c.nullable = true ∨ c.primaryKey = true) →
        (execute db (.insert t ["*"] vals)).1 = .ok []
        ∧ (lookupTable (execute db (.insert t ["*"] vals)).2.tables t).map
            Table.rows = some (tab.rows ++ [⟨[]⟩]))) := by
  refine ⟨by decide, ?_⟩
  intro db t vals tab hlook hstar hcomp
  constructor
  · intro hex
    obtain ⟨m, hm⟩ := buildRowColumns_star_err tab.columns vals [] hstar hex
    refine ⟨m, ?_⟩
    show ((insertRowWithIndexes db t ["*"] vals).1.map (fun _ => []),
      (insertRowWithIndexes db t ["*"] vals).2) = _
    simp only [insertRowWithIndexes, hlook, hm, Except.map]
  · intro hnul
    have hok := buildRowColumns_star_ok tab.columns vals [] hstar hnul
    have hidx : (tab.indexManager.insertIntoIndexes [] tab.nextRowId).1 =
        none :=
      insertIntoIndexes_empty tab.indexManager tab.nextRowId hcomp
    show ((insertRowWithIndexes db t ["*"] vals).1.map (fun _ => []) = _)
      ∧ ((lookupTable (insertRowWithIndexes db t ["*"] vals).2.tables t).map
          Table.rows = _)
    have hpk : pkViolationCheck tab.indexManager [] = none := by
      unfold pkViolationCheck
      rcases tab.indexManager.getPrimaryKeyIndex with _ | pkIndex <;> rfl
    rcases hr : tab.indexManager.insertIntoIndexes [] tab.nextRowId
      with ⟨e?, m'⟩
    rw [hr] at hidx
    subst hidx
    simp only [insertRowWithIndexes, hlook, hok, hpk, insertRowFinish, hr,
      Except.map]
    rw [lookupTable_tablesModify, hlook]
    exact ⟨trivial, rfl⟩

/-- C10 witness: the star-insert behaviour at a concrete table with only
nullable columns. -/
theorem starInsertBehaviour_witness :
    (execute dbC8a (.insert "t" ["*"] [.integer 7])).1 = .ok []
    ∧ (lookupTable (execute dbC8a (.insert "t" ["*"] [.integer 7])).2.tables
        "t").map Table.rows = some [⟨[]⟩] := by
  have h := (starInsertBehaviour.2 dbC8a "t" [.integer 7]
    { name := "t", columns := [⟨"x", .float, true, false⟩], rows := [],
      indexManager := IndexManager.new, nextRowId := 0 }
    (by decide) (by decide) (by decide)).2 (by decide)
  exact ⟨h.1, h.2⟩

/-- Any entry of `tablesInsert` is the inserted table or an old entry. -/
theorem mem_tablesInsert (ts : List (String × Table)) (n : String) (t : Table)
    (p : String × Table) (hp : p ∈ tablesInsert ts n t) :
    p.2 = t ∨ p ∈ ts := by
  unfold tablesInsert at hp
  split at hp
  · rcases List.mem_map.mp hp with ⟨q, hq, rfl⟩
    by_cases hk : q.1 == n
    · simp [hk]
    · have hk' : (q.1 == n) = false := by simpa using hk
      simp [hk']
      exact Or.inr hq
  · rcases List.mem_append.mp hp with h | h
    · exact Or.inr h
    · simp at h
      simp [h]

/-- Any entry of a constant `tablesModify` is the new table or an old
entry. -/
theorem mem_tablesModify_const (ts : List (String × Table)) (n : String)
    (t2 : Table) (p : String × Table)
    (hp : p ∈ tablesModify ts n (fun _ => t2)) :
    p.2 = t2 ∨ p ∈ ts := by
  unfold tablesModify at hp
  rcases List.mem_map.mp hp with ⟨q, hq, rfl⟩
  by_cases hk : q.1 == n
  · simp [hk]
  · have hk' : (q.1 == n) = false := by simpa using hk
    simp [hk']
    exact Or.inr hq

/-- Entries of `tablesRemove` are old entries. -/
theorem mem_tablesRemove (ts : List (String × Table)) (n : String)
    (p : String × Table) (hp : p ∈ tablesRemove ts n) : p ∈ ts :=
  List.mem_of_mem_filter hp

/-- A successful lookup names an entry of the list. -/
theorem lookupTable_mem (ts : List (String × Table)) (n : String) (tb : Table)
    (h : lookupTable ts n = some tb) : ∃ p ∈ ts, p.2 = tb := by
  unfold lookupTable at h
  rcases hf : ts.find? (fun p => p.1 == n) with _ | q
  · rw [hf] at h; cases h
  · rw [hf] at h
    cases h
    exact ⟨q, List.mem_of_find?_eq_some hf, rfl⟩

/-- Unfolding a lookup one entry at a time. -/
theorem lookupTable_cons (k : String) (v : Table) (ts : List (String × Table))
    (n : String) :
    lookupTable ((k, v) :: ts) n =
      if (k == n) = true then some v else lookupTable ts n := by
  by_cases h : (k == n) = true
  · simp [lookupTable, List.find?_cons, h]
  · simp [lookupTable, List.find?_cons, h]

/-- Unfolding `tablesModify` one entry at a time. -/
theorem tablesModify_cons (k : String) (v : Table) (ts : List (String × Table))
    (m : String) (f : Table → Table) :
    tablesModify ((k, v) :: ts) m f =
      (if (k == m) = true then (k, f v) else (k, v)) :: tablesModify ts m f :=
  rfl

/-- Looking up any key after an in-place modification at key `m`. -/
theorem lookupTable_tablesModify_general (ts : List (String × Table))
    (m n : String) (f : Table → Table) :
    lookupTable (tablesModify ts m f) n =
      if n = m then (lookupTable ts n).map f else lookupTable ts n := by
  induction ts with
  | nil => by_cases h : n = m <;> simp [tablesModify, lookupTable, h]
  | cons p ts ih =>
    obtain ⟨k, v⟩ := p
    rw [tablesModify_cons]
    by_cases hkn : (k == n) = true
    · by_cases hkm : (k == m) = true
      · have hnm : n = m := by
          have h1 : k = n := by simpa using hkn
          have h2 : k = m := by simpa using hkm
          rw [← h1, h2]
        simp [hkm, lookupTable_cons, hkn, hnm]
      · have hnm : ¬ n = m := by
          have h1 : k = n := by simpa using hkn
          intro hh
          exact hkm (by simp [h1, hh])
        simp [hkm, lookupTable_cons, hkn, hnm]
    · by_cases hkm : (k == m) = true
      · simp [hkm, lookupTable_cons, hkn, ih]
      · simp [hkm, lookupTable_cons, hkn, ih]

/-- Looking up a different key in a map that replaces values at key `m`. -/
theorem lookupTable_mapReplace_ne (ts : List (String × Table)) (m n : String)
    (t : Table) (h : ¬ n = m) :
    lookupTable (ts.map (fun p => if p.1 == m then (p.1, t) else p)) n =
      lookupTable ts n := by
  induction ts with
  | nil => rfl
  | cons p ts ih =>
    obtain ⟨k, v⟩ := p
    simp only [List.map_cons]
    by_cases hkm : (k == m) = true
    · have hkn : ¬ (k == n) = true := by
        have h1 : k = m := by simpa using hkm
        simp [h1]
        intro hh
        exact h hh.symm
      rw [if_pos hkm, lookupTable_cons, lookupTable_cons, if_neg hkn,
        if_neg hkn]
      exact ih
    · rw [if_neg hkm, lookupTable_cons, lookupTable_cons]
      by_cases hkn : (k == n) = true
      · rw [if_pos hkn, if_pos hkn]
      · rw [if_neg hkn, if_neg hkn]
        exact ih

/-- Looking up a different key after `tablesInsert`. -/
theorem lookupTable_tablesInsert_ne (ts : List (String × Table))
    (m n : String) (t : Table) (h : ¬ n = m) :
    lookupTable (tablesInsert ts m t) n = lookupTable ts n := by
  unfold tablesInsert
  split
  · exact lookupTable_mapReplace_ne ts m n t h
  · unfold lookupTable
    rw [List.find?_append]
    have hm2 : ¬ (m == n) = true := by
      simp
      intro hh
      exact h hh.symm
    simp [List.find?, hm2]

/-- Looking up after `tablesRemove`. -/
theorem lookupTable_tablesRemove (ts : List (String × Table)) (m n : String) :
    lookupTable (tablesRemove ts m) n =
      if n = m then none else lookupTable ts n := by
  induction ts with
  | nil => by_cases h : n = m <;> simp [tablesRemove, lookupTable, h]
  | cons p ts ih =>
    obtain ⟨k, v⟩ := p
    by_cases hkm : (k == m) = true
    · have hstep : tablesRemove ((k, v) :: ts) m = tablesRemove ts m := by
        have h1 : k = m := by simpa using hkm
        simp [tablesRemove, List.filter_cons, h1]
      rw [hstep, ih]
      by_cases hn : n = m
      · simp [hn]
      · have hkn : ¬ (k == n) = true := by
          have h1 : k = m := by simpa using hkm
          simp [h1]
          intro hh
          exact hn hh.symm
        rw [if_neg hn, if_neg hn, lookupTable_cons, if_neg hkn]
    · have hstep : tablesRemove ((k, v) :: ts) m =
          (k, v) :: tablesRemove ts m := by
        simp only [tablesRemove, List.filter_cons]
        simp [hkm]
      rw [hstep, lookupTable_cons, ih]
      by_cases hkn : (k == n) = true
      · have hnm : ¬ n = m := by
          have h1 : k = n := by simpa using hkn
          intro hh
          exact hkm (by simp [h1, hh])
        rw [if_pos hkn, if_neg hnm, lookupTable_cons, if_pos hkn]
      · rw [if_neg hkn]
        by_cases hn : n = m
        · simp [hn]
        · rw [if_neg hn, if_neg hn, lookupTable_cons, if_neg hkn]

/-- The invariant of claim C6: a table's rows never outnumber its
next_row_id. -/
def TableNextOk (tb : Table) : Prop := tb.rows.length ≤ tb.nextRowId

/-- `TableNextOk` for every table of an engine's table map. -/
def NextRowIdInv (ts : List (String × Table)) : Prop :=
  ∀ p ∈ ts, TableNextOk p.2

theorem nextInv_tablesInsert (ts : List (String × Table)) (n : String)
    (t2 : Table) (hinv : NextRowIdInv ts) (h2 : TableNextOk t2) :
    NextRowIdInv (tablesInsert ts n t2) := by
  intro p hp
  rcases mem_tablesInsert ts n t2 p hp with he | hm
  · rw [he]; exact h2
  · exact hinv p hm

theorem nextInv_tablesModify_const (ts : List (String × Table)) (n : String)
    (t2 : Table) (hinv : NextRowIdInv ts) (h2 : TableNextOk t2) :
    NextRowIdInv (tablesModify ts n (fun _ => t2)) := by
  intro p hp
  rcases mem_tablesModify_const ts n t2 p hp with he | hm
  · rw [he]; exact h2
  · exact hinv p hm

theorem nextInv_tablesRemove (ts : List (String × Table)) (n : String)
    (hinv : NextRowIdInv ts) : NextRowIdInv (tablesRemove ts n) :=
  fun p hp => hinv p (mem_tablesRemove ts n p hp)

/-- The looked-up table satisfies the invariant. -/
theorem tableNextOk_of_lookup (ts : List (String × Table)) (n : String)
    (tb : Table) (hinv : NextRowIdInv ts) (h : lookupTable ts n = some tb) :
    TableNextOk tb := by
  rcases lookupTable_mem ts n tb h with ⟨p, hp, he⟩
  rw [← he]
  exact hinv p hp

/-- One `execute` step preserves the C6 invariant (on success and on
failure alike). -/
theorem execute_preserves_nextInv (db : Database) (s : SqlStatement)
    (hinv : NextRowIdInv db.tables) : NextRowIdInv (execute db s).2.tables := by
  cases s with
  | createDatabase n => exact hinv
  | createTable n cols =>
    simp only [execute]
    unfold createTableWithIndexes
    split
    · exact hinv
    · refine nextInv_tablesInsert _ _ _ hinv ?_
      show (0 : Nat) ≤ 0
      exact Nat.le_refl 0
  | insert n cs vs =>
    show NextRowIdInv (insertRowWithIndexes db n cs vs).2.tables
    unfold insertRowWithIndexes
    split
    · exact hinv
    · rename_i table hl
      split
      · exact hinv
      · split
        · exact hinv
        · unfold insertRowFinish
          split
          · refine nextInv_tablesModify_const _ _ _ hinv ?_
            have h2 := tableNextOk_of_lookup _ _ _ hinv hl
            exact Nat.le_succ_of_le h2
          · refine nextInv_tablesModify_const _ _ _ hinv ?_
            have h2 := tableNextOk_of_lookup _ _ _ hinv hl
            show ((table.rows ++ _).length ≤ table.nextRowId + 1)
            simpa using Nat.succ_le_succ h2
  | select n cols wc l o => exact hinv
  | update n scs wc =>
    simp only [execute]
    split
    · exact hinv
    · split
      · exact hinv
      · rename_i table hl
        refine nextInv_tablesModify_const _ _ _ hinv ?_
        have h2 := tableNextOk_of_lookup _ _ _ hinv hl
        show ((table.rows.enum.map _).length ≤ table.nextRowId)
        simpa [List.enum_length] using h2
  | delete n wc =>
    simp only [execute]
    split
    · exact hinv
    · split
      · exact hinv
      · rename_i table hl
        refine nextInv_tablesModify_const _ _ _ hinv ?_
        have hok := tableNextOk_of_lookup _ _ _ hinv hl
        split
        · show ((.nil : List Row).length ≤ table.nextRowId)
          exact Nat.zero_le _
        · show (((table.rows.enum.filter _).map _).length ≤ table.nextRowId)
          calc (((table.rows.enum.filter _).map _).length)
              = (table.rows.enum.filter _).length := List.length_map _ _
            _ ≤ table.rows.enum.length := List.length_filter_le _ _
            _ = table.rows.length := List.enum_length
            _ ≤ table.nextRowId := hok
  | dropTable n => exact nextInv_tablesRemove _ _ hinv
  | dropDatabase n => intro p hp; cases hp
  | alterTable n act =>
    cases act with
    | addColumn column =>
      simp only [execute]
      split
      · exact hinv
      · rename_i table hl
        have hok := tableNextOk_of_lookup _ _ _ hinv hl
        split
        · exact hinv
        · refine nextInv_tablesModify_const _ _ _ hinv ?_
          show ((table.rows.map _).length ≤ table.nextRowId)
          simpa using hok
    | dropColumn cn =>
      simp only [execute]
      split
      · exact hinv
      · rename_i table hl
        have hok := tableNextOk_of_lookup _ _ _ hinv hl
        refine nextInv_tablesModify_const _ _ _ hinv ?_
        show ((table.rows.map _).length ≤ table.nextRowId)
        simpa using hok
    | modifyColumn column =>
      simp only [execute]
      split
      · exact hinv
      · rename_i table hl
        have hok := tableNextOk_of_lookup _ _ _ hinv hl
        split
        · exact nextInv_tablesModify_const _ _ _ hinv hok
        · exact hinv
  | complexSelect n => exact hinv
  | createCompositeIndex a b c d => exact hinv
  | dropIndex n => exact hinv

/-- Splitting a successful `Except` bind. -/
theorem exceptBind_ok {α β : Type} (x : Except DatabaseError α)
    (f : α → Except DatabaseError β) (b : β)
    (h : (x >>= f) = .ok b) : ∃ a, x = .ok a ∧ f a = .ok b := by
  cases x with
  | error e => simp [Bind.bind, Except.bind] at h
  | ok a => exact ⟨a, rfl, by simpa [Bind.bind, Except.bind] using h⟩

/-- Every table `deserialize_table` returns has `next_row_id` equal to its
row count (src/persistence.rs:255-272). -/
theorem deserializeTable_next (buffer : List Nat) (cursor : Nat) (t : Table)
    (c2 : Nat) (h : deserializeTable buffer cursor = .ok (t, c2)) :
    t.nextRowId = t.rows.length := by
  unfold deserializeTable at h
  split at h
  · exact Except.noConfusion h
  · dsimp only [] at h
    split at h
    · exact Except.noConfusion h
    · split at h
      · exact Except.noConfusion h
      · split at h
        · exact Except.noConfusion h
        · obtain ⟨⟨cols, c3⟩, hx, h⟩ := exceptBind_ok _ _ _ h
          split at h
          · exact Except.noConfusion h
          · obtain ⟨⟨rows, c4⟩, hy, h⟩ := exceptBind_ok _ _ _ h
            obtain ⟨im, hz, h⟩ := exceptBind_ok _ _ _ h
            obtain ⟨im2, hw, h⟩ := exceptBind_ok _ _ _ h
            cases h
            rfl

/-- The table loop of `deserialize_tables` only accumulates tables with
`next_row_id` equal to their row count. -/
theorem deserializeTablesLoop_next (buffer : List Nat) :
    ∀ (count cursor : Nat) (acc ts : List (String × Table)),
      (∀ p ∈ acc, p.2.nextRowId = p.2.rows.length) →
      deserializeTablesLoop buffer count cursor acc = .ok ts →
      ∀ p ∈ ts, p.2.nextRowId = p.2.rows.length
  | 0, cursor, acc, ts, hacc, h => by
    unfold deserializeTablesLoop at h
    cases h
    exact hacc
  | count + 1, cursor, acc, ts, hacc, h => by
    unfold deserializeTablesLoop at h
    obtain ⟨⟨table, c⟩, hx, h⟩ := exceptBind_ok _ _ _ h
    dsimp only [] at h
    have htab := deserializeTable_next buffer cursor table c hx
    refine deserializeTablesLoop_next buffer count c _ ts ?_ h
    intro p hp
    split at hp
    · rcases List.mem_map.mp hp with ⟨q, hq, rfl⟩
      by_cases hqt : (q.1 == table.name) = true
      · simp only [hqt, if_true]
        exact htab
      · simp only [hqt, if_false]
        exact hacc q hq
    · rcases List.mem_append.mp hp with hq | hq
      · exact hacc p hq
      · simp only [List.mem_singleton] at hq
        rw [hq]
        exact htab

/-- The common monotonicity step: a constant in-place modification at key
`m` that does not decrease `next_row_id`. -/
theorem mono_modify_const (ts : List (String × Table)) (m n : String)
    (table T tb tb2 : Table)
    (heq : lookupTable ts m = some table)
    (h1 : lookupTable ts n = some tb)
    (h2 : lookupTable (tablesModify ts m (fun _ => T)) n = some tb2)
    (hT : table.nextRowId ≤ T.nextRowId) :
    tb.nextRowId ≤ tb2.nextRowId := by
  rw [lookupTable_tablesModify_general] at h2
  by_cases hnm : n = m
  · subst hnm
    rw [h1] at heq
    cases heq
    rw [if_pos rfl, h1] at h2
    simp only [Option.map_some'] at h2
    cases h2
    exact hT
  · rw [if_neg hnm, h1] at h2
    cases h2
    exact Nat.le_refl _

/-- Across one `execute` that does not re-create the table, its
`next_row_id` never decreases. -/
theorem execute_nextRowId_mono (db : Database) (s : SqlStatement) (n : String)
    (tb tb2 : Table) (hs : ∀ cols, s ≠ .createTable n cols)
    (h1 : lookupTable db.tables n = some tb)
    (h2 : lookupTable (execute db s).2.tables n = some tb2) :
    tb.nextRowId ≤ tb2.nextRowId := by
  cases s with
  | createDatabase m =>
    simp only [execute] at h2
    rw [h1] at h2
    cases h2
    exact Nat.le_refl _
  | createTable m cols =>
    have hnm : ¬ n = m := by
      intro hh
      exact hs cols (by rw [hh])
    simp only [execute] at h2
    unfold createTableWithIndexes at h2
    split at h2
    · rw [h1] at h2
      cases h2
      exact Nat.le_refl _
    · rw [lookupTable_tablesInsert_ne _ _ _ _ hnm, h1] at h2
      cases h2
      exact Nat.le_refl _
  | insert m cs vs =>
    have h2x : lookupTable (insertRowWithIndexes db m cs vs).2.tables n =
        some tb2 := h2
    unfold insertRowWithIndexes at h2x
    split at h2x
    · rw [h1] at h2x
      cases h2x
      exact Nat.le_refl _
    · rename_i table heq
      split at h2x
      · rw [h1] at h2x
        cases h2x
        exact Nat.le_refl _
      · split at h2x
        · rw [h1] at h2x
          cases h2x
          exact Nat.le_refl _
        · unfold insertRowFinish at h2x
          split at h2x
          · exact mono_modify_const _ _ _ _ _ _ _ heq h1 h2x
              (Nat.le_succ _)
          · exact mono_modify_const _ _ _ _ _ _ _ heq h1 h2x
              (Nat.le_succ _)
  | select m cols wc l o =>
    simp only [execute] at h2
    rw [h1] at h2
    cases h2
    exact Nat.le_refl _
  | update m scs wc =>
    simp only [execute] at h2
    split at h2
    · rw [h1] at h2
      cases h2
      exact Nat.le_refl _
    · split at h2
      · rw [h1] at h2
        cases h2
        exact Nat.le_refl _
      · rename_i table heq
        exact mono_modify_const _ _ _ _ _ _ _ heq h1 h2 (Nat.le_refl _)
  | delete m wc =>
    simp only [execute] at h2
    split at h2
    · rw [h1] at h2
      cases h2
      exact Nat.le_refl _
    · split at h2
      · rw [h1] at h2
        cases h2
        exact Nat.le_refl _
      · rename_i table heq
        refine mono_modify_const _ _ _ _ _ _ _ heq h1 h2 ?_
        split
        · exact Nat.le_refl _
        · exact Nat.le_refl _
  | dropTable m =>
    simp only [execute] at h2
    rw [lookupTable_tablesRemove] at h2
    by_cases hnm : n = m
    · rw [if_pos hnm] at h2
      cases h2
    · rw [if_neg hnm, h1] at h2
      cases h2
      exact Nat.le_refl _
  | dropDatabase m =>
    simp only [execute] at h2
    cases h2
  | alterTable m act =>
    cases act with
    | addColumn column =>
      simp only [execute] at h2
      split at h2
      · rw [h1] at h2
        cases h2
        exact Nat.le_refl _
      · rename_i table heq
        split at h2
        · rw [h1] at h2
          cases h2
          exact Nat.le_refl _
        · exact mono_modify_const _ _ _ _ _ _ _ heq h1 h2 (Nat.le_refl _)
    | dropColumn cn =>
      simp only [execute] at h2
      split at h2
      · rw [h1] at h2
        cases h2
        exact Nat.le_refl _
      · rename_i table heq
        exact mono_modify_const _ _ _ _ _ _ _ heq h1 h2 (Nat.le_refl _)
    | modifyColumn column =>
      simp only [execute] at h2
      split at h2
      · rw [h1] at h2
        cases h2
        exact Nat.le_refl _
      · rename_i table heq
        split at h2
        · exact mono_modify_const _ _ _ _ _ _ _ heq h1 h2 (Nat.le_refl _)
        · rw [h1] at h2
          cases h2
          exact Nat.le_refl _
  | complexSelect m =>
    simp only [execute] at h2
    rw [h1] at h2
    cases h2
    exact Nat.le_refl _
  | createCompositeIndex a b c d =>
    simp only [execute] at h2
    rw [h1] at h2
    cases h2
    exact Nat.le_refl _
  | dropIndex m =>
    simp only [execute] at h2
    rw [h1] at h2
    cases h2
    exact Nat.le_refl _

/-- C9 counterexample.  The claim says every row has a key for every
non-nullable column after every successful execute, including an Insert
naming a non-nullable column but supplying fewer values.  Three violations:
(a) naming NOT-NULL column a with an empty value list succeeds and appends a
row without the key; (b) omitting a NOT-NULL primary-key column entirely
succeeds (the missing-column check exempts primary keys); (c) ALTER TABLE
MODIFY COLUMN can mark a column NOT NULL without backfilling existing
rows. -/
theorem missingValueInsertSucceeds :
    ((execute dbC9a insC9a).1 = .ok []
      ∧ (lookupTable (execute dbC9a insC9a).2.tables "t9").map Table.rows =
          some [⟨[]⟩])
    ∧ ((execute dbC9b insC9b).1 = .ok []
      ∧ (lookupTable (execute dbC9b insC9b).2.tables "t9b").map Table.rows =
          some [⟨[("name", .text "n")]⟩])
    ∧ ((execute dbC9c modC9).1 = .ok []
      ∧ (lookupTable (execute dbC9c modC9).2.tables "t9c").map
          (fun t => (t.columns, t.rows)) =
          some ([⟨"b", .integer, false, false⟩], [⟨[]⟩])) :=
  ⟨⟨by decide, by decide⟩, ⟨by decide, by decide⟩, ⟨by decide, by decide⟩⟩

/-- Every table of a database produced by `load_from_bytes` has
`next_row_id` equal to its row count. -/
theorem loadFromBytes_next (name : String) (bytes : List Nat) (db2 : Database)
    (h : Database.loadFromBytes name bytes = .ok db2) :
    ∀ p ∈ db2.tables, p.2.nextRowId = p.2.rows.length := by
  unfold Database.loadFromBytes at h
  obtain ⟨ts, hts, h⟩ := exceptBind_ok _ _ _ h
  cases h
  show ∀ p ∈ ts, p.2.nextRowId = p.2.rows.length
  unfold deserializeTables at hts
  split at hts
  · cases hts
    intro p hp
    cases hp
  · refine deserializeTablesLoop_next bytes _ 4 [] ts ?_ hts
    intro p hp
    cases hp

/-- C6: amended next_row_id discipline.  The claim asserts next_row_id is
at least the row count after every operation, and never decreases across
executions, including a save followed by a load.  The second half is false:
`next_row_id` is not serialized and `deserialize_table` resets it to the
row count, so a save/load can decrease it (see the counterexample).  What
does hold: (1) every `execute` preserves the invariant
`rows.length ≤ next_row_id` on all tables; (2) after a load every table has
`next_row_id` exactly equal to its row count, so the invariant is
re-established (at its minimum); (3) across any single `execute` that is
not a CREATE TABLE re-creating the table in question, the table's
next_row_id never decreases. -/
theorem nextRowIdInvariant (db : Database) (s : SqlStatement)
    (hinv : NextRowIdInv db.tables) :
    NextRowIdInv (execute db s).2.tables
    ∧ (∀ (name : String) (bytes : List Nat) (db2 : Database),
        Database.loadFromBytes name bytes = .ok db2 →
        ∀ p ∈ db2.tables, p.2.nextRowId = p.2.rows.length)
    ∧ (∀ (n : String) (tb tb2 : Table),
        (∀ cols, s ≠ .createTable n cols) →
        lookupTable db.tables n = some tb →
        lookupTable (execute db s).2.tables n = some tb2 →
        tb.nextRowId ≤ tb2.nextRowId) := by
  refine ⟨execute_preserves_nextInv db s hinv, loadFromBytes_next, ?_⟩
  intro n tb tb2 hs h1 h2
  exact execute_nextRowId_mono db s n tb tb2 hs h1 h2

/-- Witness: the invariant holds concretely after inserting Alice into the
fresh users table. -/
theorem nextRowIdInvariant_witness :
    NextRowIdInv (execute dbC3a insAlice).2.tables :=
  (nextRowIdInvariant dbC3a insAlice
    (by unfold NextRowIdInv TableNextOk; decide)).1

/-! ## C9: which column keys the engine actually guarantees on rows -/

/-- A row carries a key for every non-nullable, non-primary-key column of
the schema.  (Primary-key columns are excluded: the missing-column check of
`insert_row_with_indexes` exempts them, see the counterexample.) -/
def RowHasKeys (cols : List ColumnDefinition) (r : Row) : Prop :=
  ∀ c ∈ cols, c.nullable = false → c.primaryKey = false →
    (rcGet r.columns c.name).isSome = true

/-- `RowHasKeys` for every row of every table of an engine's table map. -/
def RowKeysInv (ts : List (String × Table)) : Prop :=
  ∀ p ∈ ts, ∀ r ∈ p.2.rows, RowHasKeys p.2.columns r

/-- A key is present exactly when some pair carries it. -/
theorem rcGet_isSome_any (m : List (String × SqlValue)) (k : String) :
    (rcGet m k).isSome = m.any (fun p => p.1 == k) := by
  induction m with
  | nil => rfl
  | cons a rest ih =>
    simp only [rcGet, List.find?_cons, List.any_cons]
    cases h : (a.1 == k)
    · simp only [h, Bool.false_or]
      exact ih
    · simp [h]

/-- The keys of `rcInsert` are the old keys plus the inserted one. -/
theorem rcInsert_any (m : List (String × SqlValue)) (k2 : String)
    (v : SqlValue) (k : String) :
    (rcInsert m k2 v).any (fun p => p.1 == k) =
      (m.any (fun p => p.1 == k) || (k2 == k)) := by
  unfold rcInsert
  split
  · rename_i hany
    rw [List.any_map]
    have he : ((fun (p : String × SqlValue) => p.1 == k) ∘
        (fun p => if p.1 == k2 then (p.1, v) else p)) =
        (fun (p : String × SqlValue) => p.1 == k) := by
      funext q
      simp only [Function.comp_apply]
      split
      · rfl
      · rfl
    rw [he]
    cases hk : (k2 == k)
    · rw [Bool.or_false]
    · have hk2 : k2 = k := eq_of_beq hk
      subst hk2
      rw [hany]
      rfl
  · rw [List.any_append]
    simp

theorem rcGet_rcInsert_isSome (m : List (String × SqlValue)) (k2 : String)
    (v : SqlValue) (k : String) :
    (rcGet (rcInsert m k2 v) k).isSome =
      ((rcGet m k).isSome || (k2 == k)) := by
  rw [rcGet_isSome_any, rcGet_isSome_any, rcInsert_any]

theorem rcGet_rcInsert_mono (m : List (String × SqlValue)) (k2 : String)
    (v : SqlValue) (k : String) (h : (rcGet m k).isSome = true) :
    (rcGet (rcInsert m k2 v) k).isSome = true := by
  rw [rcGet_rcInsert_isSome, h, Bool.true_or]

theorem rcGet_rcInsert_self (m : List (String × SqlValue)) (k : String)
    (v : SqlValue) : (rcGet (rcInsert m k v) k).isSome = true := by
  rw [rcGet_rcInsert_isSome]
  simp

/-- Removing one key does not affect the others. -/
theorem rcRemove_any (m : List (String × SqlValue)) (k2 k : String)
    (hk : ¬ k = k2) :
    (rcRemove m k2).any (fun p => p.1 == k) = m.any (fun p => p.1 == k) := by
  induction m with
  | nil => rfl
  | cons a rest ih =>
    show ((a :: rest).filter _).any _ = _
    rw [List.filter_cons]
    by_cases ha : a.1 = k2
    · have h1 : (a.1 == k) = false := by
        rw [ha]
        simpa using fun he => hk he.symm
      have hc : ¬ ((decide ¬((a.1 == k2) = true)) = true) := by simp [ha]
      rw [if_neg hc, List.any_cons, h1, Bool.false_or]
      exact ih
    · have hc : (decide ¬((a.1 == k2) = true)) = true := by simp [ha]
      rw [if_pos hc, List.any_cons, List.any_cons, ← ih]
      rfl

theorem rcGet_rcRemove_isSome (m : List (String × SqlValue)) (k2 k : String)
    (hk : ¬ k = k2) :
    (rcGet (rcRemove m k2) k).isSome = (rcGet m k).isSome := by
  rw [rcGet_isSome_any, rcGet_isSome_any, rcRemove_any m k2 k hk]

/-- A fold of SET-clause insertions keeps every present key present. -/
theorem rcGet_foldl_rcInsert_mono :
    ∀ (qs : List (String × SqlValue)) (m : List (String × SqlValue))
      (k : String), (rcGet m k).isSome = true →
      (rcGet (qs.foldl (fun cols q => rcInsert cols q.1 q.2) m) k).isSome =
        true
  | [], _, _, h => h
  | q :: rest, m, k, h =>
    rcGet_foldl_rcInsert_mono rest (rcInsert m q.1 q.2) k
      (rcGet_rcInsert_mono m q.1 q.2 k h)

/-- A found index is within the list (with the running-start argument). -/
theorem findIdx_go_lt {α : Type} (p : α → Bool) :
    ∀ (l : List α) (s i : Nat), List.findIdx? p l s = some i →
      i < s + l.length
  | [], _, _, h => Option.noConfusion h
  | a :: l, s, i, h => by
    unfold List.findIdx? at h
    split at h
    · cases h
      have hc : (a :: l).length = l.length + 1 := rfl
      omega
    · have h2 := findIdx_go_lt p l (s + 1) i h
      have hc : (a :: l).length = l.length + 1 := rfl
      omega

/-- An in-bounds position has a value. -/
theorem get_some_of_lt {α : Type} :
    ∀ (l : List α) (n : Nat), n < l.length → ∃ v, l.get? n = some v
  | a :: _, 0, _ => ⟨a, rfl⟩
  | _ :: l, n + 1, h => get_some_of_lt l n (Nat.lt_of_succ_lt_succ h)

/-- The row-map loop only ever adds keys: present keys stay present. -/
theorem buildRowColumns_mono :
    ∀ (cols : List ColumnDefinition) (cs : List String) (vs : List SqlValue)
      (acc out : List (String × SqlValue)) (k : String),
      buildRowColumns cols cs vs acc = .ok out →
      (rcGet acc k).isSome = true → (rcGet out k).isSome = true
  | [], _, _, _, _, _, h, hk => by
    cases h
    exact hk
  | c :: rest, cs, vs, acc, out, k, h, hk => by
    unfold buildRowColumns at h
    split at h
    · split at h
      · exact buildRowColumns_mono rest cs vs _ out k h
          (rcGet_rcInsert_mono acc c.name _ k hk)
      · exact buildRowColumns_mono rest cs vs acc out k h hk
    · split at h
      · exact Except.noConfusion h
      · exact buildRowColumns_mono rest cs vs acc out k h hk

/-- When the statement supplies at least as many values as it names
columns, a successful row-map construction yields a key for every
non-nullable, non-primary-key schema column. -/
theorem buildRowColumns_keys :
    ∀ (cols : List ColumnDefinition) (cs : List String) (vs : List SqlValue)
      (acc out : List (String × SqlValue)),
      cs.length ≤ vs.length →
      buildRowColumns cols cs vs acc = .ok out →
      ∀ c ∈ cols, c.nullable = false → c.primaryKey = false →
        (rcGet out c.name).isSome = true
  | [], _, _, _, _, _, _, c, hc, _, _ => absurd hc (List.not_mem_nil c)
  | c0 :: rest, cs, vs, acc, out, hlen, h, c, hc, hn, hp => by
    unfold buildRowColumns at h
    rcases List.mem_cons.mp hc with rfl | hc2
    · split at h
      · rename_i pos hpos
        split at h
        · exact buildRowColumns_mono rest cs vs _ out c.name h
            (rcGet_rcInsert_self acc c.name _)
        · rename_i hv
          exfalso
          have hlt := findIdx_go_lt _ cs 0 pos hpos
          obtain ⟨v, hv2⟩ := get_some_of_lt vs pos (by omega)
          rw [hv2] at hv
          cases hv
      · split at h
        · exact Except.noConfusion h
        · rename_i hcond
          exact absurd ⟨by simp [hn], by simp [hp]⟩ hcond
    · split at h
      · split at h
        · exact buildRowColumns_keys rest cs vs _ out hlen h c hc2 hn hp
        · exact buildRowColumns_keys rest cs vs acc out hlen h c hc2 hn hp
      · split at h
        · exact Except.noConfusion h
        · exact buildRowColumns_keys rest cs vs acc out hlen h c hc2 hn hp

/-- A pair of `enumFrom` carries an element of the underlying list. -/
theorem snd_mem_of_mem_enumFrom {α : Type} :
    ∀ (l : List α) (s : Nat) (p : Nat × α), p ∈ List.enumFrom s l → p.2 ∈ l
  | [], _, p, h => absurd h (List.not_mem_nil p)
  | a :: l, s, p, h => by
    rcases List.mem_cons.mp h with rfl | h2
    · exact List.mem_cons_self a l
    · exact List.mem_cons_of_mem a (snd_mem_of_mem_enumFrom l (s + 1) p h2)

theorem rowsInv_tablesInsert (ts : List (String × Table)) (n : String)
    (t2 : Table) (hinv : RowKeysInv ts)
    (h2 : ∀ r ∈ t2.rows, RowHasKeys t2.columns r) :
    RowKeysInv (tablesInsert ts n t2) := by
  intro p hp
  rcases mem_tablesInsert ts n t2 p hp with he | hm
  · rw [he]
    exact h2
  · exact hinv p hm

theorem rowsInv_tablesModify_const (ts : List (String × Table)) (n : String)
    (t2 : Table) (hinv : RowKeysInv ts)
    (h2 : ∀ r ∈ t2.rows, RowHasKeys t2.columns r) :
    RowKeysInv (tablesModify ts n (fun _ => t2)) := by
  intro p hp
  rcases mem_tablesModify_const ts n t2 p hp with he | hm
  · rw [he]
    exact h2
  · exact hinv p hm

theorem rowsInv_tablesRemove (ts : List (String × Table)) (n : String)
    (hinv : RowKeysInv ts) : RowKeysInv (tablesRemove ts n) :=
  fun p hp => hinv p (mem_tablesRemove ts n p hp)

/-- The looked-up table satisfies the row-keys invariant. -/
theorem rowKeys_of_lookup (ts : List (String × Table)) (n : String)
    (tb : Table) (hinv : RowKeysInv ts) (h : lookupTable ts n = some tb) :
    ∀ r ∈ tb.rows, RowHasKeys tb.columns r := by
  rcases lookupTable_mem ts n tb h with ⟨p, hp, he⟩
  rw [← he]
  exact hinv p hp

/-- C9: amended key guarantee.  The claim says that after every successful
execute every row has a key for every non-nullable column, including when
an Insert names a non-nullable column but supplies fewer values than named
columns.  That is false on three counts (see the counterexample): a named
column whose value is missing is silently skipped, a non-nullable
primary-key column may be omitted entirely, and MODIFY COLUMN can mark a
column NOT NULL without backfilling.  What the engine does guarantee: the
invariant restricted to non-nullable, non-primary-key columns is preserved
by every `execute` whose Insert statements supply at least as many values
as named columns and which is not an ALTER TABLE ... MODIFY COLUMN. -/
theorem nonNullableKeysInvariant (db : Database) (s : SqlStatement)
    (hinv : RowKeysInv db.tables)
    (hins : ∀ tn cs vs, s = .insert tn cs vs → cs.length ≤ vs.length)
    (hmod : ∀ tn c, s ≠ .alterTable tn (.modifyColumn c)) :
    RowKeysInv (execute db s).2.tables := by
  cases s with
  | createDatabase n => exact hinv
  | createTable n cols =>
    simp only [execute]
    unfold createTableWithIndexes
    split
    · exact hinv
    · exact rowsInv_tablesInsert _ _ _ hinv
        (fun r hr => absurd hr (List.not_mem_nil r))
  | insert n cs vs =>
    show RowKeysInv (insertRowWithIndexes db n cs vs).2.tables
    unfold insertRowWithIndexes
    split
    · exact hinv
    · rename_i table hl
      split
      · exact hinv
      · rename_i rowColumns hb
        split
        · exact hinv
        · unfold insertRowFinish
          split
          · refine rowsInv_tablesModify_const _ _ _ hinv ?_
            intro r hr
            exact rowKeys_of_lookup _ _ _ hinv hl r hr
          · refine rowsInv_tablesModify_const _ _ _ hinv ?_
            intro r hr
            rcases List.mem_append.mp hr with hr1 | hr2
            · exact rowKeys_of_lookup _ _ _ hinv hl r hr1
            · simp only [List.mem_singleton] at hr2
              rw [hr2]
              intro c hcc hn hp
              exact buildRowColumns_keys table.columns cs vs [] rowColumns
                (hins n cs vs rfl) hb c hcc hn hp
  | select n cols wc l o => exact hinv
  | update n scs wc =>
    simp only [execute]
    split
    · exact hinv
    · split
      · exact hinv
      · rename_i table hl
        refine rowsInv_tablesModify_const _ _ _ hinv ?_
        intro r hr
        rcases List.mem_map.mp hr with ⟨q, hq, rfl⟩
        have hq2 : q.2 ∈ table.rows := snd_mem_of_mem_enumFrom table.rows 0 q hq
        have hold := rowKeys_of_lookup _ _ _ hinv hl q.2 hq2
        split
        · intro c hcc hn hp
          exact rcGet_foldl_rcInsert_mono scs q.2.columns c.name
            (hold c hcc hn hp)
        · exact hold
  | delete n wc =>
    simp only [execute]
    split
    · exact hinv
    · split
      · exact hinv
      · rename_i table hl
        refine rowsInv_tablesModify_const _ _ _ hinv ?_
        split
        · intro r hr
          exact absurd hr (List.not_mem_nil r)
        · intro r hr
          rcases List.mem_map.mp hr with ⟨q, hq, rfl⟩
          have hq2 : q.2 ∈ table.rows :=
            snd_mem_of_mem_enumFrom table.rows 0 q (List.mem_of_mem_filter hq)
          exact rowKeys_of_lookup _ _ _ hinv hl q.2 hq2
  | dropTable n => exact rowsInv_tablesRemove _ _ hinv
  | dropDatabase n =>
    intro p hp
    cases hp
  | alterTable n act =>
    cases act with
    | addColumn column =>
      simp only [execute]
      split
      · exact hinv
      · rename_i table hl
        split
        · exact hinv
        · refine rowsInv_tablesModify_const _ _ _ hinv ?_
          intro r hr
          rcases List.mem_map.mp hr with ⟨r0, hr0, rfl⟩
          intro c hcc hn hp
          rcases List.mem_append.mp hcc with hc1 | hc2
          · exact rcGet_rcInsert_mono r0.columns column.name _ c.name
              (rowKeys_of_lookup _ _ _ hinv hl r0 hr0 c hc1 hn hp)
          · simp only [List.mem_singleton] at hc2
            rw [hc2]
            exact rcGet_rcInsert_self r0.columns column.name _
    | dropColumn cn =>
      simp only [execute]
      split
      · exact hinv
      · rename_i table hl
        refine rowsInv_tablesModify_const _ _ _ hinv ?_
        intro r hr
        rcases List.mem_map.mp hr with ⟨r0, hr0, rfl⟩
        intro c hcc hn hp
        have hc1 : c ∈ table.columns := List.mem_of_mem_filter hcc
        have hkne : ¬ c.name = cn := by simpa using List.of_mem_filter hcc
        show (rcGet (rcRemove r0.columns cn) c.name).isSome = true
        rw [rcGet_rcRemove_isSome r0.columns cn c.name hkne]
        exact rowKeys_of_lookup _ _ _ hinv hl r0 hr0 c hc1 hn hp
    | modifyColumn column => exact absurd rfl (hmod n column)
  | complexSelect n => exact hinv
  | createCompositeIndex a b c d => exact hinv
  | dropIndex n => exact hinv

/-- Witness: the key invariant holds concretely after inserting Alice. -/
theorem nonNullableKeysInvariant_witness :
    RowKeysInv (execute dbC3a insAlice).2.tables :=
  nonNullableKeysInvariant dbC3a insAlice
    (by unfold RowKeysInv RowHasKeys; decide)
    (by
      intro tn cs vs h
      cases h
      decide)
    (by
      intro tn c h
      cases h)

end MirseoDB
